import Mathlib

/-!
Verification of the context-resolution engine of `tmux-mcp`.

This file is a shallow embedding, in Lean 4, of the algorithmic core of the
repository:

* the feedback store (`src/context-resolver/feedback-manager.ts`),
* the hint interpreter (`src/context-resolver/hint-interpreter.ts`),
* the multi-stage scorer (`src/context-resolver/multi-stage-scorer.ts`),
* the context-resolution orchestration (`src/context-resolver.ts`,
  `createContextResolver.describe`).

Modelling conventions:

* JavaScript numbers are modelled as rationals (`ℚ`); `Math.round` is
  Lean's `round` (both are `⌊x + 1/2⌋`).  The only place where a
  non-finite number is observable in the modelled code is the
  `Number.isFinite` guard of `register`, so timestamps entering
  `register` are modelled by an explicit `JSNum` type with non-finite
  values.
* JavaScript strings are modelled as Lean `String`s; the operations the
  code uses (`toLowerCase`, `trim`, `\s+` collapsing, `includes`,
  splitting on a character class) are re-implemented structurally on
  `List Char` so that they compute by kernel reduction.  `toLowerCase`
  is modelled on the ASCII range (the only range the verified inputs
  exercise); `String.prototype.normalize("NFKC")` is an external Unicode
  primitive and is therefore a function parameter (`nfkc`) of the
  interpreter model, instantiated with `id` on the ASCII/CJK-free
  concrete inputs used below.
* The Unicode character classes `\p{L}\p{N}%#` and `\p{Script=Hiragana}`
  used by the tokenizer regexes are modelled by explicit code-point
  classifiers that agree with the Unicode properties on ASCII and on the
  kana/han blocks exercised here.
* `Array.prototype.sort` (a stable sort by a comparator returning a
  number) is modelled by `List.insertionSort r` where `r a b` is the
  proposition "comparator(a,b) ≤ 0"; `List.insertionSort` is stable in
  the same sense as the ECMAScript sort.
* JavaScript objects used as string-keyed maps (`Record<string, number>`)
  are modelled as association lists without duplicate keys, updated in
  insertion order.
* The external collaborators (tmux candidate source, `getCurrentSession`,
  the kuromoji tokenizer and the `compromise` NLP pipeline) are modelled
  as `Except`-valued inputs: `.error e` models a thrown error / rejected
  promise.  The human-readable `reasons` strings of the scorer and the
  debug payload of `describe` are diagnostic-only and are not modelled.
-/

/-- Model of `Math.round(q * 1e6) / 1e6`, the 1e-6 rounding helper used by both the
hint interpreter (`normalizeWeights`) and the scorer (`round`). -/
def round6 (q : ℚ) : ℚ := (round (q * 1000000) : ℚ) / 1000000

/-- Model of `clampToRange` from `feedback-manager.ts`:
`Math.min(Math.max(value, lo), hi)`. -/
def clampToRange (value lo hi : ℚ) : ℚ := min (max value lo) hi

/-- A JavaScript number as it can reach the `Number.isFinite` guard of
`register`: a finite rational or one of the non-finite IEEE values. -/
inductive JSNum where
  | fin (q : ℚ)
  | nan
  | posInf
  | negInf
deriving DecidableEq

/-- Model of `Number.isFinite`. -/
def JSNum.isFinite : JSNum → Bool
  | .fin _ => true
  | _ => false

/-! ### Feedback store (`feedback-manager.ts`) -/

/-- A feedback record as handed to `register` by an (untyped) caller: the
`rating` is the runtime string value and the timestamp may be non-finite. -/
structure RawFeedbackRecord where
  paneId : String
  rating : String
  hintSignature : Option String := none
  timestamp : JSNum
deriving DecidableEq

/-- A stored feedback record.  `register` only ever stores records whose
timestamp passed the `Number.isFinite` guard, so stored timestamps are
rationals.  The `rating` string is stored as received. -/
structure FeedbackRecord where
  paneId : String
  rating : String
  hintSignature : Option String := none
  timestamp : ℚ
deriving DecidableEq

/-- Model of `FeedbackManagerOptions`. -/
structure FeedbackManagerOptions where
  ttlMs : ℚ
  maxEntries : ℕ
deriving DecidableEq

/-- The effective ttl of a feedback manager:
`const ttlMs = Math.max(1, options.ttlMs)`. -/
def effectiveTtl (o : FeedbackManagerOptions) : ℚ := max 1 o.ttlMs

/-- Model of `register`: validation guards in source order; a well-formed record is
pushed onto the store, anything else leaves the store unchanged (and the
function returns normally — there is no throw in the source). -/
def register (r : RawFeedbackRecord) (records : List FeedbackRecord) :
    List FeedbackRecord :=
  if r.paneId = "" then records
  else
    match r.timestamp with
    | .fin t =>
        if r.rating ≠ "match" ∧ r.rating ≠ "mismatch" then records
        else records ++ [⟨r.paneId, r.rating, r.hintSignature, t⟩]
    | _ => records

/-- The ascending-timestamp comparator of `prune`
(`records.sort((a, b) => a.timestamp - b.timestamp)`), as the relation
"comparator ≤ 0". -/
def tsLe (a b : FeedbackRecord) : Prop := a.timestamp ≤ b.timestamp

instance : DecidableRel tsLe := fun a b =>
  inferInstanceAs (Decidable (a.timestamp ≤ b.timestamp))

/-- Model of `prune(now)`: drop records with `timestamp < now - ttlMs`, then, if more
than `maxEntries` remain, sort ascending by timestamp and keep the last
`maxEntries` (`records.slice(records.length - options.maxEntries)`). -/
def prune (now : ℚ) (o : FeedbackManagerOptions)
    (records : List FeedbackRecord) : List FeedbackRecord :=
  let cutoff := now - effectiveTtl o
  let kept := records.filter (fun r => cutoff ≤ r.timestamp)
  if o.maxEntries < kept.length then
    (List.insertionSort tsLe kept).drop (kept.length - o.maxEntries)
  else kept

/-- Lookup in a string-keyed map modelled as an association list. -/
def lookupAdj (m : List (String × ℚ)) (k : String) : Option ℚ :=
  (m.find? (fun e => e.1 = k)).map (·.2)

/-- Model of `adjustments[k] ?? 0`. -/
def lookup0 (m : List (String × ℚ)) (k : String) : ℚ :=
  (lookupAdj m k).getD 0

/-- Model of `adjustments[k] = v`: overwrite an existing key in place, else append
(string keys of a JS object keep insertion order). -/
def setAdj (m : List (String × ℚ)) (k : String) (v : ℚ) :
    List (String × ℚ) :=
  if m.any (fun e => e.1 = k) then
    m.map (fun e => if e.1 = k then (e.1, v) else e)
  else m ++ [(k, v)]

/-- The body of the `for (const record of records)` loop of
`getAdjustments`, acting on the accumulated adjustment map. -/
def adjStep (now ttl : ℚ) (m : List (String × ℚ)) (r : FeedbackRecord) :
    List (String × ℚ) :=
  let age := max 0 (now - r.timestamp)
  if ttl ≤ age then m
  else
    let decay := 1 - age / ttl
    let contribution :=
      (if r.rating = "match" then 1 else -1) * clampToRange decay 0 1
    if contribution = 0 then m
    else setAdj m r.paneId (lookup0 m r.paneId + contribution)

/-- Model of `getAdjustments(now)`: prune (mutating the retained set — returned here
as the first component), then fold the per-record contributions into a
fresh map. -/
def getAdjustments (now : ℚ) (o : FeedbackManagerOptions)
    (records : List FeedbackRecord) :
    List FeedbackRecord × List (String × ℚ) :=
  let pruned := prune now o records
  (pruned, pruned.foldl (adjStep now (effectiveTtl o)) [])

/-- The contribution of a single surviving record inside `getAdjustments`:
the value added to the map entry of `r.paneId` (0 when the loop `continue`s
past the record). -/
def recordContribution (now ttl : ℚ) (r : FeedbackRecord) : ℚ :=
  let age := max 0 (now - r.timestamp)
  if ttl ≤ age then 0
  else (if r.rating = "match" then 1 else -1) * clampToRange (1 - age / ttl) 0 1

/-- The per-record contribution as the specification words it:
`decay = clamp(1 - age/ttlMs, 0, 1)` with `age = now - timestamp`, times
`+1` for a match and `-1` for a mismatch.  Kept separate from
`recordContribution` so the two can be compared. -/
def specContribution (now ttl : ℚ) (r : FeedbackRecord) : ℚ :=
  (if r.rating = "match" then 1 else -1) *
    clampToRange (1 - (now - r.timestamp) / ttl) 0 1

/-! ### String helpers (kernel-computable models of the JS string ops) -/

/-- ASCII `toLowerCase` on a character (the code points exercised by the
verified inputs; `String.prototype.toLowerCase` agrees on them). -/
def jsCharToLower (c : Char) : Char :=
  if 65 ≤ c.toNat ∧ c.toNat ≤ 90 then Char.ofNat (c.toNat + 32) else c

/-- Model of `toLowerCase` on a string. -/
def toLowerStr (s : String) : String := ⟨s.data.map jsCharToLower⟩

/-- Helper for `normalizeWhitespace`: collapse every run of whitespace to a
single space; the boolean records whether the previous character was
whitespace. -/
def collapseWsAux : Bool → List Char → List Char
  | _, [] => []
  | prevWs, c :: rest =>
      if c.isWhitespace then
        if prevWs then collapseWsAux true rest
        else ' ' :: collapseWsAux true rest
      else c :: collapseWsAux false rest

/-- Model of `normalizeWhitespace`: `value.replace(/\s+/g, " ")`. -/
def normalizeWhitespace (s : String) : String := ⟨collapseWsAux false s.data⟩

/-- Model of `String.prototype.trim`. -/
def trimStr (s : String) : String :=
  ⟨((s.data.dropWhile Char.isWhitespace).reverse.dropWhile
      Char.isWhitespace).reverse⟩

/-- Whether `needle` occurs as a contiguous prefix of `hay`. -/
def listPrefixOf : List Char → List Char → Bool
  | [], _ => true
  | _ :: _, [] => false
  | a :: as, b :: bs => a = b && listPrefixOf as bs

/-- Model of `hay.includes(needle)` on character lists (an empty needle is always
found, as in ECMAScript). -/
def containsSub (needle : List Char) : List Char → Bool
  | [] => needle.isEmpty
  | c :: rest => listPrefixOf needle (c :: rest) || containsSub needle rest

/-! ### Hint interpreter (`hint-interpreter.ts`) -/

/-- Provenance of a weighted hint. -/
inductive WeightedHintSource where
  | exact
  | composite
  | nl
deriving DecidableEq

/-- Model of `WeightedHint`. -/
structure WeightedHint where
  token : String
  weight : ℚ
  source : WeightedHintSource
deriving DecidableEq

/-- One entry of the `paneHints` array. -/
structure PaneHintEntry where
  value : String
  weight : Option ℚ := none

/-- Model of `HintInterpreterInput`. -/
structure HintInterpreterInput where
  paneHint : Option String := none
  paneHints : Option (List PaneHintEntry) := none

/-- Model of `HintInterpreterResult`. -/
structure HintInterpreterResult where
  weightedHints : List WeightedHint
  rawTokens : List String
  issues : List String

/-- Model of `EXACT_WEIGHT`. -/
def EXACT_WEIGHT : ℚ := 1

/-- Model of `NATURAL_LANGUAGE_WEIGHT`. -/
def NATURAL_LANGUAGE_WEIGHT : ℚ := 1

/-- Model of `DEFAULT_COMPOSITE_WEIGHT`. -/
def DEFAULT_COMPOSITE_WEIGHT : ℚ := 1

/-- Model of `ENGLISH_STOP_WORDS` (already lower-case in the source, so the
`toLowerCase` map over the literal list is the identity). -/
def ENGLISH_STOP_WORDS : List String :=
  ["the", "a", "an", "and", "or", "to", "for", "of", "in", "on", "with",
   "be", "is", "are", "was", "were", "me", "my", "please", "show", "give",
   "want", "need", "this", "that", "from", "into", "by", "about", "at", "it"]

/-- Model of `JAPANESE_STOP_WORDS`. -/
def JAPANESE_STOP_WORDS : List String :=
  ["の", "が", "を", "に", "は", "へ", "と", "で", "です", "ます",
   "ください", "下さい", "欲しい", "ほしい", "したい", "したく", "見たい",
   "みたい", "たい", "しましょう", "し", "して", "て", "よう", "ません",
   "から", "まで"]

/-- Model of `isStopWord`. -/
def isStopWord (t : String) : Bool :=
  ENGLISH_STOP_WORDS.contains t || JAPANESE_STOP_WORDS.contains t

/-- Model of `\p{Script=Hiragana}` on the code points exercised here (the base
hiragana block and its iteration marks). -/
def isHiraganaChar (c : Char) : Bool :=
  (0x3041 ≤ c.toNat ∧ c.toNat ≤ 0x3096) ∨ c.toNat = 0x309D ∨ c.toNat = 0x309E

/-- Model of `isMinorKanaToken`: a single-hiragana-character token. -/
def isMinorKanaToken (t : String) : Bool :=
  match t.data with
  | [c] => isHiraganaChar c
  | _ => false

/-- The character class `[\p{L}\p{N}%#]` of the tokenizer regexes, on
ASCII plus the kana and unified-han blocks (the only ranges the verified
inputs exercise). -/
def jsWordChar (c : Char) : Bool :=
  c.isAlpha ∨ c.isDigit ∨ c = '%' ∨ c = '#' ∨ isHiraganaChar c ∨
    (0x30A0 ≤ c.toNat ∧ c.toNat ≤ 0x30FF) ∨
    (0x4E00 ≤ c.toNat ∧ c.toNat ≤ 0x9FFF)

/-- Helper for `fallbackSegment`: maximal runs of word characters
(`cur` is the reversed run collected so far). -/
def tokenRuns (cur : List Char) : List Char → List String
  | [] => if cur.isEmpty then [] else [⟨cur.reverse⟩]
  | c :: rest =>
      if jsWordChar c then tokenRuns (c :: cur) rest
      else if cur.isEmpty then tokenRuns [] rest
      else ⟨cur.reverse⟩ :: tokenRuns [] rest

/-- Model of `fallbackSegment`: `value.split(/[^\p{L}\p{N}%#]+/u)` with empty pieces
dropped (the `.map(trim)` of the source is a no-op on runs of word
characters, which contain no whitespace). -/
def fallbackSegment (v : String) : List String := tokenRuns [] v.data

/-- Model of `tokenizeJapanese`: the kuromoji tokenizer is an external capability;
its outcome (the mapped `basic_form`/`surface_form` list, or the raised
error) is the `Except` argument.  A failure is caught and replaced by
`fallbackSegment` — it is not re-thrown. -/
def tokenizeJapaneseE {ε : Type} (kuromojiRes : Except ε (List String))
    (v : String) : List String :=
  match kuromojiRes with
  | .ok tokens => tokens
  | .error _ => fallbackSegment v

/-- Model of `extractEnglishTokens`: the `compromise` pipeline is external; its
outcome (the flattened term list, or the raised error) is the `Except`
argument.  Both an exception and an empty flattened list fall back to the
punctuation split. -/
def extractEnglishTokensE {ε : Type} (nlpRes : Except ε (List String))
    (v : String) : List String :=
  match nlpRes with
  | .ok tokens => if tokens.isEmpty then fallbackSegment v else tokens
  | .error _ => fallbackSegment v

/-- Model of `sanitizeToken`: `value.normalize("NFKC").toLowerCase()`; the NFKC
normalization is the external `nfkc` parameter. -/
def sanitizeToken (nfkc : String → String) (v : String) : String :=
  toLowerStr (nfkc v)

/-- The edge-stripping regex replace
`token.replace(/^[^\p{L}\p{N}%#]+|[^\p{L}\p{N}%#]+$/gu, "")`. -/
def stripEdges (t : String) : String :=
  ⟨((t.data.dropWhile (fun c => ¬ jsWordChar c)).reverse.dropWhile
      (fun c => ¬ jsWordChar c)).reverse⟩

/-- Model of `dedupeInOrder`. -/
def dedupeInOrder (l : List String) : List String :=
  l.foldl (fun acc v => if acc.contains v then acc else acc ++ [v]) []

/-- The shared post-processing pipeline of `extractNaturalLanguageTokens`,
applied to the candidate tokens produced by the (external) segmenters:
normalize + lower-case, strip punctuation edges, trim, drop empties, stop
words and single-hiragana tokens, then de-duplicate in order. -/
def postProcessTokens (nfkc : String → String) (candidates : List String) :
    List String :=
  dedupeInOrder
    ((((candidates.map (sanitizeToken nfkc)).map stripEdges).map
        trimStr).filter (fun t => t ≠ "") |>.filter
        (fun t => ¬ isStopWord t) |>.filter (fun t => ¬ isMinorKanaToken t))

/-- The mutable interpreter state of one `interpret` call: the `pending`
hint list, the `rawTokens` list and the `issues` list. -/
structure InterpState where
  pending : List WeightedHint
  rawTokens : List String
  issues : List String

/-- The merge step of `addHint` on the pending list: add the weight onto
the first hint with the same `(token, source)` pair, or push a new hint at
the end. -/
def addToPending (token : String) (w : ℚ) (s : WeightedHintSource) :
    List WeightedHint → List WeightedHint
  | [] => [⟨token, w, s⟩]
  | h :: rest =>
      if h.token = token ∧ h.source = s then
        ⟨h.token, h.weight + w, h.source⟩ :: rest
      else h :: addToPending token w s rest

/-- Model of `addHint`: empty tokens and non-positive weights are dropped; otherwise
the pending list is merged and the token recorded once in `rawTokens`. -/
def addHint (st : InterpState) (token : String) (w : ℚ)
    (s : WeightedHintSource) : InterpState :=
  if token = "" ∨ w ≤ 0 then st
  else
    { st with
      pending := addToPending token w s st.pending
      rawTokens :=
        if st.rawTokens.contains token then st.rawTokens
        else st.rawTokens ++ [token] }

/-- The `paneHints.forEach` loop of `interpret`. -/
def processPaneHints (nfkc : String → String)
    (entries : List PaneHintEntry) (st : InterpState) : InterpState :=
  entries.enum.foldl
    (fun st p =>
      let sanitizedValue :=
        toLowerStr (trimStr (normalizeWhitespace (nfkc p.2.value)))
      if sanitizedValue = "" then
        { st with
          issues := st.issues ++
            ["paneHints[" ++ toString p.1 ++ "] was empty after trimming"] }
      else
        let weight :=
          match p.2.weight with
          | some w => if 0 < w then w else DEFAULT_COMPOSITE_WEIGHT
          | none => DEFAULT_COMPOSITE_WEIGHT
        addHint st sanitizedValue weight .composite)
    st

/-- Model of `sanitizeExact` (identical to `sanitizeComposite` in the source):
collapse whitespace after NFKC, trim, lower-case. -/
def sanitizeExact (nfkc : String → String) (v : String) : String :=
  toLowerStr (trimStr (normalizeWhitespace (nfkc v)))

/-- The `paneHint` branch of `interpret`.  `extract` is
`extractNaturalLanguageTokens` (the CJK/latin dispatch over the external
segmenters followed by `postProcessTokens`). -/
def processPaneHint (nfkc : String → String)
    (extract : String → List String) (ph : Option String)
    (st : InterpState) : InterpState :=
  match ph with
  | none => st
  | some h =>
      let trimmed := trimStr (normalizeWhitespace (nfkc h))
      if trimmed = "" then
        { st with issues := st.issues ++ ["paneHint was empty after trimming"] }
      else
        let exactToken := sanitizeExact nfkc trimmed
        let st1 := addHint st exactToken EXACT_WEIGHT .exact
        let tokens := extract trimmed
        if tokens.isEmpty then
          { st1 with issues := st1.issues ++ ["paneHint produced no keywords"] }
        else
          tokens.foldl
            (fun st t =>
              addHint st t (NATURAL_LANGUAGE_WEIGHT / tokens.length) .nl)
            st1

/-- Model of `sumWeights`. -/
def sumWeights (hints : List WeightedHint) : ℚ :=
  (hints.map (·.weight)).sum

/-- Model of `normalizeWeights`: an empty result when the pre-normalization sum is
non-positive, otherwise every weight rescaled by `weight / total` and
rounded to 1e-6. -/
def normalizeWeights (hints : List WeightedHint) : List WeightedHint :=
  let total := sumWeights hints
  if total ≤ 0 then []
  else hints.map (fun h => ⟨h.token, round6 (h.weight / total), h.source⟩)

/-- The interpreter state after processing both inputs (structured hints
first, then the free-text hint, as in the source). -/
def interpretState (nfkc : String → String)
    (extract : String → List String) (input : HintInterpreterInput) :
    InterpState :=
  let st0 : InterpState := ⟨[], [], []⟩
  let st1 :=
    match input.paneHints with
    | some entries => processPaneHints nfkc entries st0
    | none => st0
  processPaneHint nfkc extract input.paneHint st1

/-- Model of `interpret`. -/
def interpret (nfkc : String → String) (extract : String → List String)
    (input : HintInterpreterInput) : HintInterpreterResult :=
  let st := interpretState nfkc extract input
  ⟨normalizeWeights st.pending, st.rawTokens, st.issues⟩

/-! ### Multi-stage scorer (`multi-stage-scorer.ts`) -/

/-- Model of `TmuxPane` (optional booleans default to `false`, matching JS
truthiness of `undefined`). -/
structure TmuxPane where
  id : String
  title : String
  session : String
  window : String
  currentCommand : Option String := none
  isActive : Bool := false
  isActiveWindow : Bool := false
  isActiveSession : Bool := false
  lastUsed : Option ℚ := none
  tags : Option (List String) := none
deriving DecidableEq

/-- Model of `layoutBonus`. -/
structure LayoutBonus where
  sameWindow : ℚ
  sameSession : ℚ
deriving DecidableEq

/-- Model of `feedback` weights. -/
structure FeedbackWeights where
  positive : ℚ
  negative : ℚ
  decayMinutes : ℚ
deriving DecidableEq

/-- Model of `ScoringWeights`; `commandCategories` is a string-keyed map. -/
structure ScoringWeights where
  hint : ℚ
  activePane : ℚ
  activeWindow : ℚ
  activeSession : ℚ
  defaultPane : ℚ
  commandCategories : List (String × ℚ)
  layoutBonus : LayoutBonus
  feedback : FeedbackWeights
deriving DecidableEq

/-- Model of `StageContributions` (one field per `ScoreStage`, all initialised to 0
by `createStageMap`). -/
structure StageContributions where
  default : ℚ := 0
  hint : ℚ := 0
  activePane : ℚ := 0
  activeWindow : ℚ := 0
  activeSession : ℚ := 0
  layoutSameWindow : ℚ := 0
  layoutSameSession : ℚ := 0
  commandCategory : ℚ := 0
  feedback : ℚ := 0
deriving DecidableEq

/-- The `STAGES.reduce` total: the sum of the nine stage fields in
evaluation order. -/
def stageTotal (c : StageContributions) : ℚ :=
  c.default + c.hint + c.activePane + c.activeWindow + c.activeSession +
    c.layoutSameWindow + c.layoutSameSession + c.commandCategory + c.feedback

/-- Model of `ScoredPane` (the diagnostic `reasons` strings are not modelled). -/
structure ScoredPane where
  pane : TmuxPane
  total : ℚ
  stageContributions : StageContributions
deriving DecidableEq

/-- Model of `paneMatchesToken`: a case-insensitive substring match of the token
against id, title, window, session, command and tags.  An absent field is
skipped; note that an empty-string field is also skipped, because the
source tests the candidate string for truthiness before calling
`includes`. -/
def paneMatchesToken (pane : TmuxPane) (token : String) : Bool :=
  let lowerToken := toLowerStr token
  let candidates : List (Option String) :=
    [some pane.id, some pane.title, some pane.window, some pane.session,
     pane.currentCommand] ++ (pane.tags.getD []).map some
  candidates.any (fun c =>
    match c with
    | some s => s ≠ "" && containsSub lowerToken.data (toLowerStr s).data
    | none => false)

/-- Model of `computeHintContribution`: sum `round(hint.weight * weights.hint)` over
matching hints, skipping non-positive per-hint values, and round the
total. -/
def computeHintContribution (pane : TmuxPane) (hints : List WeightedHint)
    (w : ScoringWeights) : ℚ :=
  round6 (hints.foldl
    (fun total hint =>
      if paneMatchesToken pane hint.token then
        let value := round6 (hint.weight * w.hint)
        if value ≤ 0 then total else total + value
      else total)
    0)

/-- Model of `computeCommandContribution`: the configured bonus for the lower-cased
current command; an absent or empty command, a missing entry, and a zero
entry (all falsy in JS) give 0. -/
def computeCommandContribution (pane : TmuxPane) (w : ScoringWeights) : ℚ :=
  match pane.currentCommand with
  | none => 0
  | some cmd =>
      let command := toLowerStr cmd
      if command = "" then 0
      else
        match lookupAdj w.commandCategories command with
        | none => 0
        | some weight => if weight = 0 then 0 else round6 weight

/-- Model of `computeLayoutContribution`: the (window, session) bonus pair, non-zero
exactly when the pane shares a window/session with an active one. -/
def computeLayoutContribution (pane : TmuxPane)
    (activeWindows activeSessions : List String) (w : ScoringWeights) :
    ℚ × ℚ :=
  (if activeWindows.contains pane.window then round6 w.layoutBonus.sameWindow
   else 0,
   if activeSessions.contains pane.session then round6 w.layoutBonus.sameSession
   else 0)

/-- Model of `computeFeedbackContribution`: a missing or zero adjustment (falsy) gives
0; otherwise the adjustment times the positive/negative multiplier, rounded
(and passed through unchanged, including negative values). -/
def computeFeedbackContribution (pane : TmuxPane)
    (adjustments : List (String × ℚ)) (w : ScoringWeights) : ℚ :=
  match lookupAdj adjustments pane.id with
  | none => 0
  | some adjustment =>
      if adjustment = 0 then 0
      else
        let multiplier :=
          if 0 < adjustment then w.feedback.positive else w.feedback.negative
        let value := round6 (multiplier * adjustment)
        if value = 0 then 0 else value

/-- The per-pane body of `scorePanes`: build the stage-contribution map in
source order (note which stages are gated on a strictly positive value)
and round the total. -/
def scoreOne (activeWindows activeSessions : List String)
    (hints : List WeightedHint) (w : ScoringWeights)
    (adjustments : List (String × ℚ)) (pane : TmuxPane) : ScoredPane :=
  let cDefault := round6 w.defaultPane
  let hintContribution := computeHintContribution pane hints w
  let cHint := if 0 < hintContribution then hintContribution else 0
  let cActivePane := if pane.isActive then round6 w.activePane else 0
  let cActiveWindow := if pane.isActiveWindow then round6 w.activeWindow else 0
  let cActiveSession :=
    if pane.isActiveSession then round6 w.activeSession else 0
  let layout := computeLayoutContribution pane activeWindows activeSessions w
  let cLayoutWindow := if 0 < layout.1 then layout.1 else 0
  let cLayoutSession := if 0 < layout.2 then layout.2 else 0
  let commandContribution := computeCommandContribution pane w
  let cCommand := if 0 < commandContribution then commandContribution else 0
  let feedbackContribution := computeFeedbackContribution pane adjustments w
  let cFeedback := if feedbackContribution ≠ 0 then feedbackContribution else 0
  let contributions : StageContributions :=
    { default := cDefault, hint := cHint, activePane := cActivePane,
      activeWindow := cActiveWindow, activeSession := cActiveSession,
      layoutSameWindow := cLayoutWindow, layoutSameSession := cLayoutSession,
      commandCategory := cCommand, feedback := cFeedback }
  ⟨pane, round6 (stageTotal contributions), contributions⟩

/-- The windows of panes flagged `isActiveWindow` (computed once per
`scorePanes` call). -/
def activeWindowsOf (panes : List TmuxPane) : List String :=
  (panes.filter (·.isActiveWindow)).map (·.window)

/-- The sessions of panes flagged `isActiveSession`. -/
def activeSessionsOf (panes : List TmuxPane) : List String :=
  (panes.filter (·.isActiveSession)).map (·.session)

/-- The recency key of the sort comparator:
`pane.lastUsed ?? FALLBACK_RECENCY` with `FALLBACK_RECENCY = -Infinity`,
modelled as `WithBot ℚ`. -/
def paneRecency (s : ScoredPane) : WithBot ℚ :=
  match s.pane.lastUsed with
  | none => ⊥
  | some q => (q : WithBot ℚ)

/-- The sort comparator of `scorePanes`, as the relation
"comparator(a, b) ≤ 0": total descending, then recency descending
(missing `lastUsed` lowest), then id ascending.  The id comparison
(`localeCompare`) is modelled as code-point lexicographic order, with
which it agrees on the ASCII pane ids exercised here. -/
def paneCmpLe (a b : ScoredPane) : Prop :=
  b.total < a.total ∨
    (b.total = a.total ∧
      (paneRecency b < paneRecency a ∨
        (paneRecency b = paneRecency a ∧ a.pane.id.data ≤ b.pane.id.data)))

instance : DecidableRel paneCmpLe := fun a b =>
  inferInstanceAs (Decidable (b.total < a.total ∨
    (b.total = a.total ∧
      (paneRecency b < paneRecency a ∨
        (paneRecency b = paneRecency a ∧ a.pane.id.data ≤ b.pane.id.data)))))

/-- Model of `scorePanes`: score every pane, then sort with the stable comparator
sort. -/
def scorePanes (panes : List TmuxPane) (hints : List WeightedHint)
    (w : ScoringWeights) (adjustments : List (String × ℚ)) :
    List ScoredPane :=
  List.insertionSort paneCmpLe
    (panes.map
      (scoreOne (activeWindowsOf panes) (activeSessionsOf panes) hints w
        adjustments))

/-! ### Context resolution engine (`context-resolver.ts`, `describe`) -/

/-- The errors a `describe` call can reject with: its own
no-candidates error (`createNoPaneError`) or an unmodified collaborator
error. -/
inductive DescribeError (ε : Type) where
  | noPanes
  | collab (e : ε)
deriving DecidableEq

/-- The `feedback` field of a `describe` request (the rating is the
runtime string value). -/
structure FeedbackInput where
  paneId : String
  rating : String
  hintContext : Option String := none

/-- Model of `DescribeContextRequest` (the `tags` field is accepted by the schema
but unused by `describe`, and is omitted). -/
structure DescribeRequest where
  paneHint : Option String := none
  paneHints : Option (List PaneHintEntry) := none
  debug : Bool := false
  feedback : Option FeedbackInput := none

/-- A `sessionPanes` entry (`toResultPane`); the diagnostic `reasons` are
not modelled. -/
structure DescribeContextResultPane where
  id : String
  title : String
  session : String
  window : String
  command : Option String
  score : ℚ
deriving DecidableEq

/-- Model of `toResultPane`. -/
def toResultPane (entry : ScoredPane) : DescribeContextResultPane :=
  ⟨entry.pane.id, entry.pane.title, entry.pane.session, entry.pane.window,
   entry.pane.currentCommand, entry.total⟩

/-- Model of `DescribeContextResult` (the optional debug payload is diagnostic-only
and not modelled). -/
structure DescribeContextResult where
  sessionPanes : List DescribeContextResultPane
deriving DecidableEq

/-- The session scoping of `describe`: a truthy `agentSession` wins;
otherwise the sessions flagged active, if any; otherwise no scoping. -/
def scopedPanesOf (panes : List TmuxPane) (agentSession : Option String) :
    List TmuxPane :=
  let activeSessionIds := activeSessionsOf panes
  let fallback :=
    if activeSessionIds.isEmpty then panes
    else panes.filter (fun p => activeSessionIds.contains p.session)
  match agentSession with
  | some s => if s = "" then fallback else panes.filter (fun p => p.session = s)
  | none => fallback

/-- The additive merge of the manager adjustments into the external
adjustment snapshot
(`feedbackAdjustments[paneId] = (feedbackAdjustments[paneId] ?? 0) + value`). -/
def mergeAdjustments (external managerAdjustments : List (String × ℚ)) :
    List (String × ℚ) :=
  managerAdjustments.foldl
    (fun acc kv => setAdj acc kv.1 (lookup0 acc kv.1 + kv.2)) external

/-- The immediate registration of a request's feedback correction into the
store, before adjustments are computed. -/
def registerRequestFeedback (request : DescribeRequest) (nowTs : ℚ)
    (st : List FeedbackRecord) : List FeedbackRecord :=
  match request.feedback with
  | some f => register ⟨f.paneId, f.rating, f.hintContext, .fin nowTs⟩ st
  | none => st

/-- The tail of `describe` once the candidates and the scoping session are
known: scoped-set check, hint interpretation outcome, feedback
registration, adjustment merge, scoring, and the final checks, in source
order. -/
def describeWithSession {ε : Type} (cfg : FeedbackManagerOptions)
    (weights : ScoringWeights) (externalAdjustments : List (String × ℚ))
    (panes : List TmuxPane)
    (interpretRes : Except ε HintInterpreterResult) (nowTs : ℚ)
    (request : DescribeRequest) (st : List FeedbackRecord)
    (agentSession : Option String) :
    Except (DescribeError ε) (DescribeContextResult × List FeedbackRecord) :=
  let scopedPanes := scopedPanesOf panes agentSession
  if scopedPanes.length = 0 then .error .noPanes
  else
    match interpretRes with
    | .error e => .error (.collab e)
    | .ok interpretedHints =>
      let st1 := registerRequestFeedback request nowTs st
      let pruned := (getAdjustments nowTs cfg st1).1
      let managerAdjustments := (getAdjustments nowTs cfg st1).2
      let feedbackAdjustments :=
        mergeAdjustments externalAdjustments managerAdjustments
      let scored :=
        scorePanes scopedPanes interpretedHints.weightedHints weights
          feedbackAdjustments
      if scored.length = 0 then .error .noPanes
      else
        let sessionPanes := scored.map toResultPane
        if sessionPanes.length = 0 then .error .noPanes
        else .ok (⟨sessionPanes⟩, pruned)

/-- Model of `describe`, with the asynchronous collaborator outcomes passed in as
`Except` values (`.error e` models a rejected promise, which the source
does not catch) and the feedback store state threaded explicitly.  The
steps and checks are in source order. -/
def describeE {ε : Type} (cfg : FeedbackManagerOptions)
    (weights : ScoringWeights) (externalAdjustments : List (String × ℚ))
    (listPanesRes : Except ε (List TmuxPane))
    (getCurrentSessionRes : Option (Except ε (Option String)))
    (interpretRes : Except ε HintInterpreterResult) (nowTs : ℚ)
    (request : DescribeRequest) (st : List FeedbackRecord) :
    Except (DescribeError ε) (DescribeContextResult × List FeedbackRecord) :=
  match listPanesRes with
  | .error e => .error (.collab e)
  | .ok panes =>
    if panes.length = 0 then .error .noPanes
    else
      match getCurrentSessionRes with
      | some (.error e) => .error (.collab e)
      | gcs =>
        describeWithSession cfg weights externalAdjustments panes
          interpretRes nowTs request st
          (match gcs with
           | some (.ok s) => s
           | _ => none)

/-- The filter applied by `prune` before eviction. -/
def keptRecords (now : ℚ) (o : FeedbackManagerOptions)
    (st : List FeedbackRecord) : List FeedbackRecord :=
  st.filter (fun r => now - effectiveTtl o ≤ r.timestamp)

/-- The all-zero scoring-weight configuration (used by the tie-break
scenario, where every candidate is "tied on every scoring weight"). -/
def zeroWeights : ScoringWeights :=
  ⟨0, 0, 0, 0, 0, [], ⟨0, 0⟩, ⟨0, 0, 0⟩⟩

/-- A pane that differs from its peers only in id and `lastUsed`. -/
def tiePane (pid : String) (lu : ℚ) : TmuxPane :=
  { id := pid, title := "t", session := "s", window := "w",
    lastUsed := some lu }

/-! ### Lemmas about the adjustment map -/

lemma lookupAdj_cons_self (e : String × ℚ) (t : List (String × ℚ))
    (k : String) (he : e.1 = k) : lookupAdj (e :: t) k = some e.2 := by
  unfold lookupAdj
  rw [List.find?_cons_of_pos _ (by simp [he])]
  rfl

lemma lookupAdj_cons_other (e : String × ℚ) (t : List (String × ℚ))
    (k : String) (he : ¬ e.1 = k) : lookupAdj (e :: t) k = lookupAdj t k := by
  unfold lookupAdj
  rw [List.find?_cons_of_neg _ (by simp [he])]

lemma lookupAdj_append_single_self (m : List (String × ℚ)) (k : String)
    (v : ℚ) (h : ¬ m.any (fun e => e.1 = k) = true) :
    lookupAdj (m ++ [(k, v)]) k = some v := by
  induction m with
  | nil => exact lookupAdj_cons_self _ _ _ rfl
  | cons e t ih =>
      simp only [List.any_cons, Bool.or_eq_true, not_or] at h
      have he : ¬ e.1 = k := by simpa using h.1
      rw [List.cons_append, lookupAdj_cons_other _ _ _ he]
      exact ih (by simpa using h.2)

lemma lookupAdj_append_single_other (m : List (String × ℚ)) (k k' : String)
    (v : ℚ) (hne : k' ≠ k) :
    lookupAdj (m ++ [(k, v)]) k' = lookupAdj m k' := by
  induction m with
  | nil =>
      rw [List.nil_append, lookupAdj_cons_other _ _ _ (fun h => hne h.symm)]
  | cons e t ih =>
      by_cases he : e.1 = k'
      · rw [List.cons_append, lookupAdj_cons_self _ _ _ he,
          lookupAdj_cons_self _ _ _ he]
      · rw [List.cons_append, lookupAdj_cons_other _ _ _ he,
          lookupAdj_cons_other _ _ _ he]
        exact ih

lemma lookupAdj_map_update_self (m : List (String × ℚ)) (k : String) (v : ℚ)
    (h : m.any (fun e => e.1 = k) = true) :
    lookupAdj (m.map (fun e => if e.1 = k then (e.1, v) else e)) k =
      some v := by
  induction m with
  | nil => simp at h
  | cons e t ih =>
      by_cases he : e.1 = k
      · rw [List.map_cons, if_pos he]
        exact lookupAdj_cons_self _ _ _ he
      · simp only [List.any_cons, Bool.or_eq_true] at h
        rw [List.map_cons, if_neg he, lookupAdj_cons_other _ _ _ he]
        refine ih ?_
        rcases h with h | h
        · exact absurd (by simpa using h) he
        · exact h

lemma lookupAdj_map_update_other (m : List (String × ℚ)) (k k' : String)
    (v : ℚ) (hne : k' ≠ k) :
    lookupAdj (m.map (fun e => if e.1 = k then (e.1, v) else e)) k' =
      lookupAdj m k' := by
  induction m with
  | nil => rfl
  | cons e t ih =>
      by_cases he : e.1 = k
      · have he' : ¬ e.1 = k' := by rw [he]; exact fun hh => hne hh.symm
        rw [List.map_cons, if_pos he,
          lookupAdj_cons_other (e.1, v) _ _ he',
          lookupAdj_cons_other e t _ he']
        exact ih
      · by_cases he2 : e.1 = k'
        · rw [List.map_cons, if_neg he, lookupAdj_cons_self _ _ _ he2,
            lookupAdj_cons_self _ _ _ he2]
        · rw [List.map_cons, if_neg he, lookupAdj_cons_other _ _ _ he2,
            lookupAdj_cons_other _ _ _ he2]
          exact ih

lemma lookupAdj_setAdj_self (m : List (String × ℚ)) (k : String) (v : ℚ) :
    lookupAdj (setAdj m k v) k = some v := by
  unfold setAdj
  by_cases h : m.any (fun e => e.1 = k) = true
  · rw [if_pos h]
    exact lookupAdj_map_update_self m k v h
  · rw [if_neg h]
    exact lookupAdj_append_single_self m k v h

lemma lookupAdj_setAdj_other (m : List (String × ℚ)) (k k' : String) (v : ℚ)
    (hne : k' ≠ k) :
    lookupAdj (setAdj m k v) k' = lookupAdj m k' := by
  unfold setAdj
  by_cases h : m.any (fun e => e.1 = k) = true
  · rw [if_pos h]
    exact lookupAdj_map_update_other m k k' v hne
  · rw [if_neg h]
    exact lookupAdj_append_single_other m k k' v hne

lemma lookup0_setAdj_self (m : List (String × ℚ)) (k : String) (v : ℚ) :
    lookup0 (setAdj m k v) k = v := by
  simp [lookup0, lookupAdj_setAdj_self]

lemma lookup0_setAdj_other (m : List (String × ℚ)) (k k' : String) (v : ℚ)
    (hne : k' ≠ k) :
    lookup0 (setAdj m k v) k' = lookup0 m k' := by
  simp [lookup0, lookupAdj_setAdj_other m k k' v hne]

/-- The value `adjStep` adds for one record is `recordContribution`. -/
lemma lookup0_adjStep (now ttl : ℚ) (m : List (String × ℚ))
    (r : FeedbackRecord) (k : String) :
    lookup0 (adjStep now ttl m r) k =
      lookup0 m k +
        (if r.paneId = k then recordContribution now ttl r else 0) := by
  unfold adjStep recordContribution
  by_cases hage : ttl ≤ max 0 (now - r.timestamp)
  · simp [hage]
  · simp only [if_neg hage]
    by_cases hz :
        (if r.rating = "match" then (1:ℚ) else -1) *
          clampToRange (1 - max 0 (now - r.timestamp) / ttl) 0 1 = 0
    · simp [hz]
    · simp only [if_neg hz]
      by_cases hk : r.paneId = k
      · subst hk
        rw [lookup0_setAdj_self, if_pos rfl]
      · rw [lookup0_setAdj_other _ _ _ _ (fun h => hk h.symm), if_neg hk,
          add_zero]

lemma lookup0_foldl_adjStep (now ttl : ℚ) (l : List FeedbackRecord)
    (m : List (String × ℚ)) (k : String) :
    lookup0 (l.foldl (adjStep now ttl) m) k =
      lookup0 m k +
        ((l.filter (fun r => r.paneId = k)).map
          (recordContribution now ttl)).sum := by
  induction l generalizing m with
  | nil => simp
  | cons r t ih =>
      rw [List.foldl_cons, ih, lookup0_adjStep]
      by_cases hk : r.paneId = k
      · simp [hk, add_assoc]
      · simp [hk]

lemma lookupAdj_foldl_adjStep_absent (now ttl : ℚ)
    (l : List FeedbackRecord) (m : List (String × ℚ)) (k : String)
    (h : ∀ r ∈ l, r.paneId ≠ k) :
    lookupAdj (l.foldl (adjStep now ttl) m) k = lookupAdj m k := by
  induction l generalizing m with
  | nil => rfl
  | cons r t ih =>
      rw [List.foldl_cons, ih _ (fun q hq => h q (List.mem_cons_of_mem _ hq))]
      unfold adjStep
      by_cases hage : ttl ≤ max 0 (now - r.timestamp)
      · simp [hage]
      · simp only [if_neg hage]
        by_cases hz :
            (if r.rating = "match" then (1:ℚ) else -1) *
              clampToRange (1 - max 0 (now - r.timestamp) / ttl) 0 1 = 0
        · simp [hz]
        · simp only [if_neg hz]
          exact lookupAdj_setAdj_other _ _ _ _
            (fun hkk => h r (List.mem_cons_self r t) hkk.symm)

/-- For a positive ttl the code's per-record contribution coincides with
the specification's `±1 · clamp(1 - age/ttl, 0, 1)` formula (the
`Math.max(0, …)` and the early `continue` make no observable
difference). -/
lemma recordContribution_eq_spec (now ttl : ℚ) (r : FeedbackRecord)
    (httl : 0 < ttl) :
    recordContribution now ttl r = specContribution now ttl r := by
  unfold recordContribution specContribution clampToRange
  by_cases hneg : now - r.timestamp ≤ 0
  · have hmax : max 0 (now - r.timestamp) = 0 := by
      rw [max_eq_left hneg]
    rw [hmax, if_neg (not_le.mpr httl)]
    have hdivle : (now - r.timestamp) / ttl ≤ 0 :=
      div_nonpos_of_nonpos_of_nonneg hneg httl.le
    have h1 : (1:ℚ) ≤ 1 - (now - r.timestamp) / ttl := by linarith
    rw [show (1:ℚ) - 0 / ttl = 1 by ring_nf]
    rw [max_eq_left (le_trans zero_le_one h1), max_eq_left zero_le_one,
      min_eq_right h1, min_eq_right le_rfl]
  · push_neg at hneg
    have hmax : max 0 (now - r.timestamp) = now - r.timestamp :=
      max_eq_right hneg.le
    rw [hmax]
    by_cases h : ttl ≤ now - r.timestamp
    · rw [if_pos h]
      have hdiv : (1:ℚ) ≤ (now - r.timestamp) / ttl :=
        (one_le_div httl).mpr h
      have hle : 1 - (now - r.timestamp) / ttl ≤ 0 := by linarith
      rw [max_eq_right hle, min_eq_left zero_le_one, mul_zero]
    · rw [if_neg h]

instance : IsTotal FeedbackRecord tsLe :=
  ⟨fun a b => le_total a.timestamp b.timestamp⟩

instance : IsTrans FeedbackRecord tsLe :=
  ⟨fun _ _ _ hab hbc => le_trans hab hbc⟩

lemma one_le_effectiveTtl (o : FeedbackManagerOptions) :
    1 ≤ effectiveTtl o := le_max_left 1 o.ttlMs

lemma effectiveTtl_pos (o : FeedbackManagerOptions) :
    0 < effectiveTtl o := lt_of_lt_of_le one_pos (one_le_effectiveTtl o)

/-- The absolute value of a clamped-to-`[0,1]` spec contribution is the
clamp itself. -/
lemma abs_specContribution (now ttl : ℚ) (r : FeedbackRecord) :
    |specContribution now ttl r| =
      clampToRange (1 - (now - r.timestamp) / ttl) 0 1 := by
  unfold specContribution
  have hnonneg : 0 ≤ clampToRange (1 - (now - r.timestamp) / ttl) 0 1 := by
    unfold clampToRange
    exact le_min (le_max_right _ _) zero_le_one |>.trans (min_le_min le_rfl le_rfl)
  rw [abs_mul]
  rcases eq_or_ne r.rating "match" with h | h
  · rw [if_pos h, abs_one, one_mul, abs_of_nonneg hnonneg]
  · rw [if_neg h, abs_neg, abs_one, one_mul, abs_of_nonneg hnonneg]

/-- C3: every record surviving pruning contributes
`(±1) · clamp(1 - age/ttl, 0, 1)` with `age = now - timestamp`, summed per
pane id; a pane with no surviving records is absent from the map (not
present at 0); the magnitude of a single record's contribution is 0 at age
≥ ttl, exactly 1 at age 0, and strictly decreasing in age strictly between
0 and ttl. -/
theorem c3_decay_contributions (o : FeedbackManagerOptions) (now : ℚ)
    (st : List FeedbackRecord) (k : String) (r : FeedbackRecord)
    (now0 now1 now2 : ℚ) :
    lookup0 (getAdjustments now o st).2 k =
      (((prune now o st).filter (fun q => q.paneId = k)).map
        (specContribution now (effectiveTtl o))).sum
    ∧ ((∀ q ∈ prune now o st, q.paneId ≠ k) →
        lookupAdj (getAdjustments now o st).2 k = none)
    ∧ recordContribution now0 (effectiveTtl o) r =
        specContribution now0 (effectiveTtl o) r
    ∧ (effectiveTtl o ≤ now0 - r.timestamp →
        specContribution now0 (effectiveTtl o) r = 0)
    ∧ (now0 - r.timestamp = 0 →
        |specContribution now0 (effectiveTtl o) r| = 1)
    ∧ (0 < now1 - r.timestamp → now1 - r.timestamp < now2 - r.timestamp →
        now2 - r.timestamp < effectiveTtl o →
        |specContribution now2 (effectiveTtl o) r| <
          |specContribution now1 (effectiveTtl o) r|) := by
  have httl := effectiveTtl_pos o
  refine ⟨?_, ?_, ?_, ?_, ?_, ?_⟩
  · unfold getAdjustments
    rw [lookup0_foldl_adjStep]
    have : ∀ l : List FeedbackRecord,
        ((l.filter (fun q => q.paneId = k)).map
          (recordContribution now (effectiveTtl o))).sum =
        ((l.filter (fun q => q.paneId = k)).map
          (specContribution now (effectiveTtl o))).sum := by
      intro l
      refine congrArg List.sum (List.map_congr_left ?_)
      intro q _
      exact recordContribution_eq_spec now (effectiveTtl o) q httl
    rw [this]
    simp [lookup0, lookupAdj]
  · intro h
    unfold getAdjustments
    rw [lookupAdj_foldl_adjStep_absent _ _ _ _ _ h]
    rfl
  · exact recordContribution_eq_spec now0 (effectiveTtl o) r httl
  · intro h
    unfold specContribution clampToRange
    have hdiv : (1:ℚ) ≤ (now0 - r.timestamp) / effectiveTtl o :=
      (one_le_div httl).mpr h
    rw [max_eq_right (by linarith), min_eq_left zero_le_one, mul_zero]
  · intro h
    rw [abs_specContribution]
    unfold clampToRange
    rw [h, zero_div, sub_zero, max_eq_left zero_le_one, min_eq_right le_rfl]
  · intro h1 h12 h2
    rw [abs_specContribution, abs_specContribution]
    have e1 : clampToRange (1 - (now1 - r.timestamp) / effectiveTtl o) 0 1 =
        1 - (now1 - r.timestamp) / effectiveTtl o := by
      unfold clampToRange
      have hb : (now1 - r.timestamp) / effectiveTtl o < 1 :=
        (div_lt_one httl).mpr (lt_trans h12 h2)
      have ha : 0 < (now1 - r.timestamp) / effectiveTtl o :=
        div_pos h1 httl
      rw [max_eq_left (by linarith), min_eq_left (by linarith)]
    have e2 : clampToRange (1 - (now2 - r.timestamp) / effectiveTtl o) 0 1 =
        1 - (now2 - r.timestamp) / effectiveTtl o := by
      unfold clampToRange
      have hb : (now2 - r.timestamp) / effectiveTtl o < 1 :=
        (div_lt_one httl).mpr h2
      have ha : 0 < (now2 - r.timestamp) / effectiveTtl o :=
        div_pos (lt_trans h1 h12) httl
      rw [max_eq_left (by linarith), min_eq_left (by linarith)]
    rw [e1, e2]
    have hdiv : (now1 - r.timestamp) / effectiveTtl o <
        (now2 - r.timestamp) / effectiveTtl o :=
      (div_lt_div_iff_of_pos_right httl).mpr h12
    linarith

/-- Witness for C3 (the spec's own scenario): a match registered at time 0
with ttl 60000 yields adjustment 1/2 at time 30000; a record of age 70000
contributes 0; a record of age 0 has magnitude exactly 1; magnitude
strictly decreases from age 10000 to age 20000. -/
theorem c3_witness :
    lookup0 (getAdjustments 30000 ⟨60000, 200⟩
        [⟨"%1", "match", none, 0⟩]).2 "%1" = 1/2
    ∧ specContribution 70000 (effectiveTtl ⟨60000, 200⟩)
        ⟨"%1", "match", none, 0⟩ = 0
    ∧ |specContribution 0 (effectiveTtl ⟨60000, 200⟩)
        ⟨"%1", "match", none, 0⟩| = 1
    ∧ |specContribution 20000 (effectiveTtl ⟨60000, 200⟩)
        ⟨"%1", "match", none, 0⟩| <
      |specContribution 10000 (effectiveTtl ⟨60000, 200⟩)
        ⟨"%1", "match", none, 0⟩| := by
  refine ⟨?_, ?_, ?_, ?_⟩
  · rw [(c3_decay_contributions ⟨60000, 200⟩ 30000 [⟨"%1", "match", none, 0⟩]
      "%1" ⟨"%1", "match", none, 0⟩ 0 0 0).1]
    norm_num [prune, effectiveTtl, specContribution, clampToRange, max_def,
      min_def, List.filter]
  · exact (c3_decay_contributions ⟨60000, 200⟩ 0 [] "%1"
      ⟨"%1", "match", none, 0⟩ 70000 0 0).2.2.2.1
      (by norm_num [effectiveTtl, max_def])
  · exact (c3_decay_contributions ⟨60000, 200⟩ 0 [] "%1"
      ⟨"%1", "match", none, 0⟩ 0 0 0).2.2.2.2.1 (by norm_num)
  · exact (c3_decay_contributions ⟨60000, 200⟩ 0 [] "%1"
      ⟨"%1", "match", none, 0⟩ 0 10000 20000).2.2.2.2.2
      (by norm_num) (by norm_num) (by norm_num [effectiveTtl, max_def])

lemma prune_eq_ite (now : ℚ) (o : FeedbackManagerOptions)
    (st : List FeedbackRecord) :
    prune now o st =
      if o.maxEntries < (keptRecords now o st).length then
        (List.insertionSort tsLe (keptRecords now o st)).drop
          ((keptRecords now o st).length - o.maxEntries)
      else keptRecords now o st := rfl

/-- C4 (amended): pruning keeps exactly the records of age at most
`ttlMs` (so a record at age exactly `ttlMs` is retained, pace the claim's
"age ≥ ttlMs is removed"), and when more than `maxEntries` remain it keeps
the `maxEntries` newest of them: the result is the suffix of the
ascending-timestamp sort, it has length exactly `maxEntries`, and every
evicted record is at least as old as every retained one. -/
theorem c4_prune_eviction (now : ℚ) (o : FeedbackManagerOptions)
    (st : List FeedbackRecord) :
    (∀ r ∈ prune now o st, now - r.timestamp ≤ effectiveTtl o)
    ∧ ((keptRecords now o st).length ≤ o.maxEntries →
        prune now o st = keptRecords now o st)
    ∧ (o.maxEntries < (keptRecords now o st).length →
        prune now o st =
          (List.insertionSort tsLe (keptRecords now o st)).drop
            ((keptRecords now o st).length - o.maxEntries)
        ∧ (prune now o st).length = o.maxEntries
        ∧ ∀ d ∈ (List.insertionSort tsLe (keptRecords now o st)).take
            ((keptRecords now o st).length - o.maxEntries),
          ∀ p ∈ prune now o st, d.timestamp ≤ p.timestamp) := by
  have hkept : ∀ r ∈ keptRecords now o st, now - r.timestamp ≤ effectiveTtl o := by
    intro r hr
    have := List.of_mem_filter hr
    have hts : now - effectiveTtl o ≤ r.timestamp := by
      simpa using this
    linarith
  refine ⟨?_, ?_, ?_⟩
  · intro r hr
    rw [prune_eq_ite] at hr
    by_cases h : o.maxEntries < (keptRecords now o st).length
    · rw [if_pos h] at hr
      exact hkept r ((List.perm_insertionSort tsLe _).mem_iff.mp
        (List.mem_of_mem_drop hr))
    · rw [if_neg h] at hr
      exact hkept r hr
  · intro h
    rw [prune_eq_ite, if_neg (not_lt.mpr h)]
  · intro h
    have heq : prune now o st =
        (List.insertionSort tsLe (keptRecords now o st)).drop
          ((keptRecords now o st).length - o.maxEntries) := by
      rw [prune_eq_ite, if_pos h]
    have hlensort : (List.insertionSort tsLe (keptRecords now o st)).length =
        (keptRecords now o st).length :=
      (List.perm_insertionSort tsLe _).length_eq
    refine ⟨heq, ?_, ?_⟩
    · rw [heq, List.length_drop, hlensort]
      omega
    · intro d hd p hp
      rw [heq] at hp
      have hsorted : List.Pairwise tsLe
          (List.insertionSort tsLe (keptRecords now o st)) :=
        List.sorted_insertionSort tsLe (keptRecords now o st)
      rw [← List.take_append_drop
        ((keptRecords now o st).length - o.maxEntries)
        (List.insertionSort tsLe (keptRecords now o st))] at hsorted
      exact (List.pairwise_append.mp hsorted).2.2 d hd p hp

/-- Counterexample for C4 as stated: a record whose age equals `ttlMs`
exactly is NOT removed by the prune performed by `getAdjustments` (the
filter keeps `timestamp >= now - ttlMs`), while the claim asserts every
record of age ≥ `ttlMs` is removed. -/
theorem c4_counterexample :
    (getAdjustments 10 ⟨10, 10⟩ [⟨"p", "match", none, 0⟩]).1 =
      [⟨"p", "match", none, 0⟩]
    ∧ effectiveTtl ⟨10, 10⟩ ≤ 10 - (0 : ℚ) := by
  constructor
  · show prune 10 ⟨10, 10⟩ [⟨"p", "match", none, 0⟩] = _
    norm_num [prune, effectiveTtl, max_def, List.filter]
  · norm_num [effectiveTtl, max_def]

/-- Witness for C4 (the spec's eviction scenario): `maxEntries = 2`, three
valid records at timestamps 0, 10000, 20000, all younger than the ttl; one
`getAdjustments`-style prune at time 20000 retains exactly the two newest
and evicts the oldest. -/
theorem c4_witness :
    prune 20000 ⟨60000, 2⟩
      [⟨"a", "match", none, 0⟩, ⟨"b", "match", none, 10000⟩,
       ⟨"c", "match", none, 20000⟩] =
      [⟨"b", "match", none, 10000⟩, ⟨"c", "match", none, 20000⟩]
    ∧ (prune 20000 ⟨60000, 2⟩
        [⟨"a", "match", none, 0⟩, ⟨"b", "match", none, 10000⟩,
         ⟨"c", "match", none, 20000⟩]).length = 2 := by
  have hk : keptRecords 20000 ⟨60000, 2⟩
      [⟨"a", "match", none, 0⟩, ⟨"b", "match", none, 10000⟩,
       ⟨"c", "match", none, 20000⟩] =
      [⟨"a", "match", none, 0⟩, ⟨"b", "match", none, 10000⟩,
       ⟨"c", "match", none, 20000⟩] := by
    norm_num [keptRecords, effectiveTtl, max_def, List.filter]
  have H := (c4_prune_eviction 20000 ⟨60000, 2⟩
    [⟨"a", "match", none, 0⟩, ⟨"b", "match", none, 10000⟩,
     ⟨"c", "match", none, 20000⟩]).2.2 (by rw [hk]; norm_num)
  refine ⟨?_, H.2.1⟩
  rw [H.1, hk]
  norm_num [List.insertionSort, List.orderedInsert, tsLe]

/-- C8: `register` appends the record exactly when the pane id is
non-empty, the timestamp is finite and the rating is one of
match/mismatch; any malformed record leaves the store unchanged (and the
model is a total function — the source contains no throw). -/
theorem c8_register_validation (r : RawFeedbackRecord)
    (st : List FeedbackRecord) :
    (∀ t : ℚ, r.timestamp = JSNum.fin t → r.paneId ≠ "" →
      (r.rating = "match" ∨ r.rating = "mismatch") →
      register r st = st ++ [⟨r.paneId, r.rating, r.hintSignature, t⟩])
    ∧ ((r.paneId = "" ∨ r.timestamp.isFinite = false ∨
        (r.rating ≠ "match" ∧ r.rating ≠ "mismatch")) →
      register r st = st) := by
  constructor
  · intro t ht hp hr
    unfold register
    rw [if_neg hp, ht]
    have : ¬ (r.rating ≠ "match" ∧ r.rating ≠ "mismatch") := by
      rcases hr with h | h
      · exact fun hc => hc.1 h
      · exact fun hc => hc.2 h
    dsimp only
    rw [if_neg this]
  · intro h
    rcases h with h | h | h
    · unfold register
      rw [if_pos h]
    · by_cases hp : r.paneId = ""
      · unfold register
        rw [if_pos hp]
      · cases ht : r.timestamp with
        | fin t => rw [ht] at h; simp [JSNum.isFinite] at h
        | nan => unfold register; rw [if_neg hp, ht]
        | posInf => unfold register; rw [if_neg hp, ht]
        | negInf => unfold register; rw [if_neg hp, ht]
    · by_cases hp : r.paneId = ""
      · unfold register
        rw [if_pos hp]
      · cases ht : r.timestamp with
        | fin t =>
            unfold register
            rw [if_neg hp, ht]
            dsimp only
            rw [if_pos h]
        | nan => unfold register; rw [if_neg hp, ht]
        | posInf => unfold register; rw [if_neg hp, ht]
        | negInf => unfold register; rw [if_neg hp, ht]

/-- Witness for C8: a well-formed record is appended; an empty pane id, an
unknown rating string, and a NaN timestamp are each silently dropped. -/
theorem c8_witness :
    register ⟨"%1", "match", none, .fin 5⟩ [] = [⟨"%1", "match", none, 5⟩]
    ∧ register ⟨"", "match", none, .fin 5⟩ [] = []
    ∧ register ⟨"%1", "ok", none, .fin 5⟩ [] = []
    ∧ register ⟨"%1", "match", none, .nan⟩ [] = [] := by
  refine ⟨?_, ?_, ?_, ?_⟩
  · simpa using (c8_register_validation ⟨"%1", "match", none, .fin 5⟩ []).1 5
      rfl (by decide) (Or.inl rfl)
  · exact (c8_register_validation _ _).2 (Or.inl rfl)
  · exact (c8_register_validation ⟨"%1", "ok", none, .fin 5⟩ []).2
      (Or.inr (Or.inr ⟨by decide, by decide⟩))
  · exact (c8_register_validation _ _).2 (Or.inr (Or.inl rfl))

/-- C10: the feedback manager clamps the configured `ttlMs` to at least 1,
so the ttl used by `getAdjustments`' decay division is always positive
(never zero), for every options value including zero and negative
`ttlMs`; the whole manager behaves as if constructed with the clamped
ttl.  (`register` and `getAdjustments` are total functions of the model,
matching the absence of any throw in the source.) -/
theorem c10_ttl_clamped (o : FeedbackManagerOptions) (now : ℚ)
    (st : List FeedbackRecord) :
    0 < effectiveTtl o
    ∧ (o.ttlMs ≤ 0 → effectiveTtl o = 1)
    ∧ getAdjustments now o st =
        getAdjustments now ⟨effectiveTtl o, o.maxEntries⟩ st := by
  refine ⟨effectiveTtl_pos o, ?_, ?_⟩
  · intro h
    unfold effectiveTtl
    exact max_eq_left (le_trans h zero_le_one)
  · have h : effectiveTtl ⟨effectiveTtl o, o.maxEntries⟩ = effectiveTtl o := by
      show max 1 (max 1 o.ttlMs) = max 1 o.ttlMs
      rw [← max_assoc, max_self]
    unfold getAdjustments prune
    rw [h]

/-- Witness for C10 at `ttlMs = 0`: the effective ttl is 1 (positive) and
`getAdjustments` agrees with the clamped manager. -/
theorem c10_witness :
    0 < effectiveTtl ⟨0, 5⟩
    ∧ effectiveTtl ⟨0, 5⟩ = 1
    ∧ getAdjustments 7 ⟨0, 5⟩ [] =
        getAdjustments 7 ⟨effectiveTtl ⟨0, 5⟩, 5⟩ [] :=
  ⟨(c10_ttl_clamped ⟨0, 5⟩ 7 []).1,
   (c10_ttl_clamped ⟨0, 5⟩ 7 []).2.1 (by norm_num),
   (c10_ttl_clamped ⟨0, 5⟩ 7 []).2.2⟩

/-! ### Lemmas about the hint interpreter -/

lemma abs_round6_sub (q : ℚ) : |round6 q - q| ≤ 1 / 2000000 := by
  unfold round6
  have heq : (round (q * 1000000) : ℚ) / 1000000 - q =
      ((round (q * 1000000) : ℚ) - q * 1000000) / 1000000 := by ring
  rw [heq, abs_div, abs_of_pos (by norm_num : (0:ℚ) < 1000000), abs_sub_comm]
  have h := abs_sub_round (q * 1000000)
  linarith

lemma round6_spec (q : ℚ) (n : ℤ) (h1 : (n:ℚ) ≤ q * 1000000 + 1/2)
    (h2 : q * 1000000 + 1/2 < n + 1) : round6 q = n / 1000000 := by
  unfold round6
  rw [round_eq]
  have : ⌊q * 1000000 + 1/2⌋ = n := Int.floor_eq_iff.mpr ⟨h1, h2⟩
  rw [this]

lemma sum_map_div (l : List ℚ) (T : ℚ) :
    (l.map (fun w => w / T)).sum = l.sum / T := by
  induction l with
  | nil => simp
  | cons a t ih => simp [ih, add_div]

lemma sum_map_const_rat {α : Type} (l : List α) (c : ℚ) :
    (l.map (fun _ => c)).sum = l.length * c := by
  induction l with
  | nil => simp
  | cons a t ih =>
      simp only [List.map_cons, List.sum_cons, List.length_cons, ih]
      push_cast
      ring

lemma sum_round6_err (l : List ℚ) (T : ℚ) :
    |(l.map (fun w => round6 (w / T))).sum - (l.map (fun w => w / T)).sum| ≤
      (l.length : ℚ) / 2 / 1000000 := by
  induction l with
  | nil => simp
  | cons w t ih =>
      simp only [List.map_cons, List.sum_cons, List.length_cons]
      have h1 := abs_round6_sub (w / T)
      have heq : round6 (w / T) + (t.map (fun w => round6 (w / T))).sum -
          (w / T + (t.map (fun w => w / T)).sum) =
          (round6 (w / T) - w / T) +
            ((t.map (fun w => round6 (w / T))).sum -
              (t.map (fun w => w / T)).sum) := by ring
      rw [heq]
      refine le_trans (abs_add _ _) ?_
      push_cast
      linarith

lemma addToPending_pos (token : String) (w : ℚ) (s : WeightedHintSource)
    (hw : 0 < w) :
    ∀ p : List WeightedHint, (∀ h ∈ p, 0 < h.weight) →
      ∀ h ∈ addToPending token w s p, 0 < h.weight := by
  intro p
  induction p with
  | nil =>
      intro _ h hh
      unfold addToPending at hh
      rcases List.mem_singleton.mp hh with rfl
      exact hw
  | cons e t ih =>
      intro hp h hh
      unfold addToPending at hh
      by_cases he : e.token = token ∧ e.source = s
      · rw [if_pos he] at hh
        rcases List.mem_cons.mp hh with h1 | h1
        · subst h1
          exact add_pos (hp e (List.mem_cons_self e t)) hw
        · exact hp h (List.mem_cons_of_mem _ h1)
      · rw [if_neg he] at hh
        rcases List.mem_cons.mp hh with h1 | h1
        · rw [h1]
          exact hp e (List.mem_cons_self e t)
        · exact ih (fun g hg => hp g (List.mem_cons_of_mem _ hg)) h h1

lemma addHint_pos (st : InterpState) (token : String) (w : ℚ)
    (s : WeightedHintSource) (hp : ∀ h ∈ st.pending, 0 < h.weight) :
    ∀ h ∈ (addHint st token w s).pending, 0 < h.weight := by
  intro h hh
  unfold addHint at hh
  by_cases hc : token = "" ∨ w ≤ 0
  · rw [if_pos hc] at hh
    exact hp h hh
  · rw [if_neg hc] at hh
    push_neg at hc
    exact addToPending_pos token w s hc.2 st.pending hp h hh

lemma foldl_pending_pos {α : Type} (f : InterpState → α → InterpState)
    (hf : ∀ st a, (∀ h ∈ st.pending, 0 < h.weight) →
      ∀ h ∈ (f st a).pending, 0 < h.weight) :
    ∀ (l : List α) (st : InterpState),
      (∀ h ∈ st.pending, 0 < h.weight) →
      ∀ h ∈ (l.foldl f st).pending, 0 < h.weight := by
  intro l
  induction l with
  | nil => intro st h; simpa using h
  | cons a t ih => intro st h; exact ih _ (hf st a h)

lemma processPaneHints_pos (nfkc : String → String)
    (entries : List PaneHintEntry) (st : InterpState)
    (hp : ∀ h ∈ st.pending, 0 < h.weight) :
    ∀ h ∈ (processPaneHints nfkc entries st).pending, 0 < h.weight := by
  unfold processPaneHints
  refine foldl_pending_pos _ ?_ _ _ hp
  intro st' p hp'
  dsimp only
  by_cases hc :
      toLowerStr (trimStr (normalizeWhitespace (nfkc p.2.value))) = ""
  · rw [if_pos hc]
    exact hp'
  · rw [if_neg hc]
    exact addHint_pos _ _ _ _ hp'

lemma processPaneHint_pos (nfkc : String → String)
    (extract : String → List String) (ph : Option String)
    (st : InterpState) (hp : ∀ h ∈ st.pending, 0 < h.weight) :
    ∀ h ∈ (processPaneHint nfkc extract ph st).pending, 0 < h.weight := by
  cases ph with
  | none => exact hp
  | some h =>
      simp only [processPaneHint]
      by_cases hc : trimStr (normalizeWhitespace (nfkc h)) = ""
      · rw [if_pos hc]
        exact hp
      · rw [if_neg hc]
        have h1 : ∀ g ∈ (addHint st (sanitizeExact nfkc
            (trimStr (normalizeWhitespace (nfkc h)))) EXACT_WEIGHT
            .exact).pending, 0 < g.weight :=
          addHint_pos _ _ _ _ hp
        by_cases he :
            (extract (trimStr (normalizeWhitespace (nfkc h)))).isEmpty = true
        · rw [if_pos he]
          exact h1
        · rw [if_neg he]
          exact foldl_pending_pos _ (fun st' t hp' => addHint_pos _ _ _ _ hp')
            _ _ h1

lemma interpretState_pos (nfkc : String → String)
    (extract : String → List String) (input : HintInterpreterInput) :
    ∀ h ∈ (interpretState nfkc extract input).pending, 0 < h.weight := by
  unfold interpretState
  cases input.paneHints with
  | none =>
      exact processPaneHint_pos nfkc extract input.paneHint _ (by simp)
  | some entries =>
      exact processPaneHint_pos nfkc extract input.paneHint _
        (processPaneHints_pos nfkc entries _ (by simp))

/-- C1 (amended): if at least one hint survives filtering the pre-
normalization sum is automatically positive (all pending weights are
positive) and the returned weights, each rescaled by `weight/sum` and
rounded to 1e-6, sum to 1.0 within `n/2 · 1e-6` where `n` is the number of
returned hints (not within `1e-6` for every `n`, see the counterexample);
if no hint survives, the returned list is empty. -/
theorem c1_weight_normalization (nfkc : String → String)
    (extract : String → List String) (input : HintInterpreterInput) :
    ((interpretState nfkc extract input).pending = [] →
      (interpret nfkc extract input).weightedHints = [])
    ∧ ((interpretState nfkc extract input).pending ≠ [] →
        (interpret nfkc extract input).weightedHints ≠ []
        ∧ 0 < sumWeights (interpretState nfkc extract input).pending
        ∧ |sumWeights (interpret nfkc extract input).weightedHints - 1| ≤
            ((interpret nfkc extract input).weightedHints.length : ℚ) / 2 /
              1000000) := by
  have hhints : (interpret nfkc extract input).weightedHints =
      normalizeWeights (interpretState nfkc extract input).pending := rfl
  constructor
  · intro h
    rw [hhints, h]
    simp [normalizeWeights, sumWeights]
  · intro h
    have hpos := interpretState_pos nfkc extract input
    have htot : 0 < sumWeights (interpretState nfkc extract input).pending := by
      unfold sumWeights
      refine List.sum_pos _ ?_ ?_
      · intro x hx
        rcases List.mem_map.mp hx with ⟨g, hg, rfl⟩
        exact hpos g hg
      · simpa using h
    have hnorm : normalizeWeights (interpretState nfkc extract input).pending =
        (interpretState nfkc extract input).pending.map
          (fun g => ⟨g.token,
            round6 (g.weight /
              sumWeights (interpretState nfkc extract input).pending),
            g.source⟩) := by
      unfold normalizeWeights
      rw [if_neg (not_le.mpr htot)]
    refine ⟨?_, htot, ?_⟩
    · rw [hhints, hnorm]
      simpa using h
    · rw [hhints, hnorm]
      have hsum : sumWeights ((interpretState nfkc extract input).pending.map
          (fun g => (⟨g.token,
            round6 (g.weight /
              sumWeights (interpretState nfkc extract input).pending),
            g.source⟩ : WeightedHint))) =
          (((interpretState nfkc extract input).pending.map (·.weight)).map
            (fun w => round6 (w /
              sumWeights (interpretState nfkc extract input).pending))).sum := by
        unfold sumWeights
        rw [List.map_map, List.map_map]
        rfl
      rw [hsum]
      have hone : (((interpretState nfkc extract input).pending.map
          (·.weight)).map (fun w => w /
            sumWeights (interpretState nfkc extract input).pending)).sum =
          1 := by
        rw [sum_map_div]
        exact div_self htot.ne'
      have herr := sum_round6_err
        ((interpretState nfkc extract input).pending.map (·.weight))
        (sumWeights (interpretState nfkc extract input).pending)
      rw [hone] at herr
      have hlen : (((interpretState nfkc extract input).pending.map
          (·.weight)).length : ℚ) =
          (((interpretState nfkc extract input).pending.map
            (fun g => (⟨g.token,
              round6 (g.weight /
                sumWeights (interpretState nfkc extract input).pending),
              g.source⟩ : WeightedHint))).length : ℚ) := by
        rw [List.length_map, List.length_map]
      rw [hlen] at herr
      exact herr

/-- Counterexample for C1 as stated: five structured hints with weights
2000004 (×4) and 1999984 survive filtering with a positive sum 10⁷, yet
the returned normalized weights (0.2, 0.2, 0.2, 0.2, 0.199998) sum to
0.999998, which misses 1.0 by 2·10⁻⁶ — outside the claimed 1e-6
tolerance. -/
theorem c1_counterexample :
    (interpret id (fun _ => [])
      ⟨none, some [⟨"a", some 2000004⟩, ⟨"b", some 2000004⟩,
        ⟨"c", some 2000004⟩, ⟨"d", some 2000004⟩,
        ⟨"e", some 1999984⟩]⟩).weightedHints ≠ []
    ∧ sumWeights (interpret id (fun _ => [])
        ⟨none, some [⟨"a", some 2000004⟩, ⟨"b", some 2000004⟩,
          ⟨"c", some 2000004⟩, ⟨"d", some 2000004⟩,
          ⟨"e", some 1999984⟩]⟩).weightedHints = 999998 / 1000000
    ∧ ¬ (|sumWeights (interpret id (fun _ => [])
          ⟨none, some [⟨"a", some 2000004⟩, ⟨"b", some 2000004⟩,
            ⟨"c", some 2000004⟩, ⟨"d", some 2000004⟩,
            ⟨"e", some 1999984⟩]⟩).weightedHints - 1| ≤ 1 / 1000000) := by
  have hsanA : toLowerStr (trimStr (normalizeWhitespace "a")) = "a" := by
    decide
  have hsanB : toLowerStr (trimStr (normalizeWhitespace "b")) = "b" := by
    decide
  have hsanC : toLowerStr (trimStr (normalizeWhitespace "c")) = "c" := by
    decide
  have hsanD : toLowerStr (trimStr (normalizeWhitespace "d")) = "d" := by
    decide
  have hsanE : toLowerStr (trimStr (normalizeWhitespace "e")) = "e" := by
    decide
  have hstate : interpretState id (fun _ => [])
      ⟨none, some [⟨"a", some 2000004⟩, ⟨"b", some 2000004⟩,
        ⟨"c", some 2000004⟩, ⟨"d", some 2000004⟩, ⟨"e", some 1999984⟩]⟩ =
      ⟨[⟨"a", 2000004, .composite⟩, ⟨"b", 2000004, .composite⟩,
        ⟨"c", 2000004, .composite⟩, ⟨"d", 2000004, .composite⟩,
        ⟨"e", 1999984, .composite⟩],
       ["a", "b", "c", "d", "e"], []⟩ := by
    norm_num [interpretState, processPaneHints, processPaneHint, List.enum,
      List.enumFrom, List.foldl, hsanA, hsanB, hsanC, hsanD, hsanE, addHint,
      addToPending, List.contains]
    simp +decide
  have hres : (interpret id (fun _ => [])
      ⟨none, some [⟨"a", some 2000004⟩, ⟨"b", some 2000004⟩,
        ⟨"c", some 2000004⟩, ⟨"d", some 2000004⟩,
        ⟨"e", some 1999984⟩]⟩).weightedHints =
      normalizeWeights
        [⟨"a", 2000004, .composite⟩, ⟨"b", 2000004, .composite⟩,
         ⟨"c", 2000004, .composite⟩, ⟨"d", 2000004, .composite⟩,
         ⟨"e", 1999984, .composite⟩] := by
    have hdef : (interpret id (fun _ => [])
        ⟨none, some [⟨"a", some 2000004⟩, ⟨"b", some 2000004⟩,
          ⟨"c", some 2000004⟩, ⟨"d", some 2000004⟩,
          ⟨"e", some 1999984⟩]⟩).weightedHints =
        normalizeWeights (interpretState id (fun _ => [])
          ⟨none, some [⟨"a", some 2000004⟩, ⟨"b", some 2000004⟩,
            ⟨"c", some 2000004⟩, ⟨"d", some 2000004⟩,
            ⟨"e", some 1999984⟩]⟩).pending := rfl
    rw [hdef, hstate]
  have e1 : round6 ((2000004 : ℚ) / 10000000) = 200000 / 1000000 :=
    round6_spec _ 200000 (by norm_num) (by norm_num)
  have e2 : round6 ((1999984 : ℚ) / 10000000) = 199998 / 1000000 :=
    round6_spec _ 199998 (by norm_num) (by norm_num)
  have hval : normalizeWeights
      [⟨"a", 2000004, .composite⟩, ⟨"b", 2000004, .composite⟩,
       ⟨"c", 2000004, .composite⟩, ⟨"d", 2000004, .composite⟩,
       ⟨"e", 1999984, .composite⟩] =
      [⟨"a", 200000 / 1000000, .composite⟩,
       ⟨"b", 200000 / 1000000, .composite⟩,
       ⟨"c", 200000 / 1000000, .composite⟩,
       ⟨"d", 200000 / 1000000, .composite⟩,
       ⟨"e", 199998 / 1000000, .composite⟩] := by
    have htotal : sumWeights
        [⟨"a", 2000004, .composite⟩, ⟨"b", 2000004, .composite⟩,
         ⟨"c", 2000004, .composite⟩, ⟨"d", 2000004, .composite⟩,
         ⟨"e", 1999984, .composite⟩] = (10000000 : ℚ) := by
      norm_num [sumWeights]
    unfold normalizeWeights
    rw [htotal, if_neg (by norm_num)]
    simp only [List.map_cons, List.map_nil]
    rw [e1, e2]
  rw [hres, hval]
  refine ⟨by simp, by norm_num [sumWeights], ?_⟩
  norm_num [sumWeights]
  rw [abs_of_pos (by norm_num : (0:ℚ) < 1/500000)]
  norm_num

/-- Witness for C1: a single structured hint survives, the pre-
normalization sum is positive, and the returned weight sum is within the
amended bound. -/
theorem c1_witness :
    (interpret id (fun _ => []) ⟨none, some [⟨"dev", none⟩]⟩).weightedHints
      ≠ []
    ∧ 0 < sumWeights (interpretState id (fun _ => [])
        ⟨none, some [⟨"dev", none⟩]⟩).pending
    ∧ |sumWeights (interpret id (fun _ => [])
        ⟨none, some [⟨"dev", none⟩]⟩).weightedHints - 1| ≤
        ((interpret id (fun _ => [])
          ⟨none, some [⟨"dev", none⟩]⟩).weightedHints.length : ℚ) / 2 /
          1000000 := by
  have hne : (interpretState id (fun _ => [])
      ⟨none, some [⟨"dev", none⟩]⟩).pending ≠ [] := by
    have hsan : toLowerStr (trimStr (normalizeWhitespace "dev")) =
        "dev" := by decide
    norm_num [interpretState, processPaneHints, processPaneHint, List.enum,
      List.enumFrom, List.foldl, hsan, addHint, addToPending,
      DEFAULT_COMPOSITE_WEIGHT]
    simp +decide
  have H := (c1_weight_normalization id (fun _ => [])
    ⟨none, some [⟨"dev", none⟩]⟩).2 hne
  exact ⟨H.1, H.2.1, H.2.2⟩

lemma addToPending_fresh (token : String) (w : ℚ) (s : WeightedHintSource) :
    ∀ p : List WeightedHint,
      (∀ h ∈ p, ¬ (h.token = token ∧ h.source = s)) →
      addToPending token w s p = p ++ [⟨token, w, s⟩] := by
  intro p
  induction p with
  | nil => intro _; rfl
  | cons e t ih =>
      intro hfresh
      unfold addToPending
      rw [if_neg (hfresh e (List.mem_cons_self e t))]
      rw [ih (fun g hg => hfresh g (List.mem_cons_of_mem _ hg))]
      rfl

lemma foldl_addHint_tokens (s : WeightedHintSource) (w : ℚ) (hw : 0 < w) :
    ∀ (ts : List String) (st : InterpState),
      (∀ t ∈ ts, t ≠ "") → ts.Nodup →
      (∀ t ∈ ts, ∀ h ∈ st.pending, ¬ (h.token = t ∧ h.source = s)) →
      (ts.foldl (fun st t => addHint st t w s) st).pending =
        st.pending ++ ts.map (fun t => ⟨t, w, s⟩) := by
  intro ts
  induction ts with
  | nil => intro st _ _ _; simp
  | cons t rest ih =>
      intro st hne hnd hfresh
      rw [List.foldl_cons]
      have ht : t ≠ "" := hne t (List.mem_cons_self t rest)
      have hstep : (addHint st t w s).pending = st.pending ++ [⟨t, w, s⟩] := by
        unfold addHint
        rw [if_neg (not_or.mpr ⟨ht, not_le.mpr hw⟩)]
        exact addToPending_fresh t w s st.pending
          (fun g hg => hfresh t (List.mem_cons_self t rest) g hg)
      have hfresh' : ∀ t' ∈ rest, ∀ h ∈ (addHint st t w s).pending,
          ¬ (h.token = t' ∧ h.source = s) := by
        intro t' ht' g hg
        rw [hstep] at hg
        rcases List.mem_append.mp hg with hg | hg
        · exact hfresh t' (List.mem_cons_of_mem _ ht') g hg
        · rcases List.mem_singleton.mp hg with rfl
          intro hc
          have hteq : t = t' := hc.1
          exact (List.nodup_cons.mp hnd).1 (hteq ▸ ht')
      rw [ih (addHint st t w s) (fun t' ht' => hne t' (List.mem_cons_of_mem _ ht'))
        (List.nodup_cons.mp hnd).2 hfresh', hstep]
      simp

/-- C7: a call carrying only a non-empty free-text hint whose extraction
yields `n ≥ 1` surviving tokens returns exactly one `exact` hint holding
the whole sanitized string at normalized weight 1/2, followed by the `n`
`nl` token hints each at normalized weight `round6(1/(2n))`; as a group
the `nl` tokens carry pre-normalization weight
`n · (1/n) = 1 = EXACT_WEIGHT`, the same as the exact hint. -/
theorem c7_exact_nl_split (nfkc : String → String)
    (extract : String → List String) (h : String)
    (h1 : trimStr (normalizeWhitespace (nfkc h)) ≠ "")
    (h2 : sanitizeExact nfkc (trimStr (normalizeWhitespace (nfkc h))) ≠ "")
    (h3 : extract (trimStr (normalizeWhitespace (nfkc h))) ≠ [])
    (h4 : (extract (trimStr (normalizeWhitespace (nfkc h)))).Nodup)
    (h5 : ∀ t ∈ extract (trimStr (normalizeWhitespace (nfkc h))), t ≠ "") :
    (interpret nfkc extract ⟨some h, none⟩).weightedHints =
      ⟨sanitizeExact nfkc (trimStr (normalizeWhitespace (nfkc h))), 1/2,
        .exact⟩ ::
        (extract (trimStr (normalizeWhitespace (nfkc h)))).map
          (fun t => ⟨t, round6 (1 / (2 *
            ((extract (trimStr (normalizeWhitespace (nfkc h)))).length : ℚ))),
            .nl⟩)
    ∧ ((extract (trimStr (normalizeWhitespace (nfkc h)))).map
        (fun _ => NATURAL_LANGUAGE_WEIGHT /
          ((extract (trimStr (normalizeWhitespace (nfkc h)))).length : ℚ))).sum
        = EXACT_WEIGHT := by
  set ts := extract (trimStr (normalizeWhitespace (nfkc h))) with hts
  have hn : 0 < ts.length := List.length_pos.mpr h3
  have hnq : (0:ℚ) < (ts.length : ℚ) := by exact_mod_cast hn
  have hw : 0 < NATURAL_LANGUAGE_WEIGHT / (ts.length : ℚ) := by
    unfold NATURAL_LANGUAGE_WEIGHT
    positivity
  -- the state after the exact-match hint is added
  have hexact : (addHint ⟨[], [], []⟩
      (sanitizeExact nfkc (trimStr (normalizeWhitespace (nfkc h))))
      EXACT_WEIGHT .exact).pending =
      [⟨sanitizeExact nfkc (trimStr (normalizeWhitespace (nfkc h))),
        EXACT_WEIGHT, .exact⟩] := by
    unfold addHint
    rw [if_neg (not_or.mpr ⟨h2, by unfold EXACT_WEIGHT; norm_num⟩)]
    rfl
  have hpending : (interpretState nfkc extract ⟨some h, none⟩).pending =
      ⟨sanitizeExact nfkc (trimStr (normalizeWhitespace (nfkc h))),
        EXACT_WEIGHT, .exact⟩ ::
        ts.map (fun t =>
          ⟨t, NATURAL_LANGUAGE_WEIGHT / (ts.length : ℚ), .nl⟩) := by
    show (processPaneHint nfkc extract (some h) ⟨[], [], []⟩).pending = _
    simp only [processPaneHint]
    rw [if_neg h1, if_neg (by simpa using h3)]
    rw [foldl_addHint_tokens .nl (NATURAL_LANGUAGE_WEIGHT / (ts.length : ℚ))
      hw ts _ h5 h4 ?_]
    · rw [hexact]
      rfl
    · intro t _ g hg
      rw [hexact] at hg
      rcases List.mem_singleton.mp hg with rfl
      intro hc
      exact absurd hc.2 (by simp)
  have hgroup : (ts.map (fun _ => NATURAL_LANGUAGE_WEIGHT /
      (ts.length : ℚ))).sum = EXACT_WEIGHT := by
    rw [sum_map_const_rat]
    unfold NATURAL_LANGUAGE_WEIGHT EXACT_WEIGHT
    field_simp
  refine ⟨?_, hgroup⟩
  have hdef : (interpret nfkc extract ⟨some h, none⟩).weightedHints =
      normalizeWeights (interpretState nfkc extract ⟨some h, none⟩).pending :=
    rfl
  rw [hdef, hpending]
  have htotal : sumWeights
      (⟨sanitizeExact nfkc (trimStr (normalizeWhitespace (nfkc h))),
        EXACT_WEIGHT, .exact⟩ ::
        ts.map (fun t =>
          ⟨t, NATURAL_LANGUAGE_WEIGHT / (ts.length : ℚ), .nl⟩)) = 2 := by
    unfold sumWeights
    rw [List.map_cons, List.sum_cons, List.map_map]
    have : (ts.map ((fun g : WeightedHint => g.weight) ∘
        (fun t => (⟨t, NATURAL_LANGUAGE_WEIGHT / (ts.length : ℚ), .nl⟩ :
          WeightedHint)))).sum =
        (ts.map (fun _ => NATURAL_LANGUAGE_WEIGHT / (ts.length : ℚ))).sum :=
      rfl
    rw [this, hgroup]
    unfold EXACT_WEIGHT
    norm_num
  unfold normalizeWeights
  rw [htotal, if_neg (by norm_num)]
  rw [List.map_cons, List.map_map]
  congr 1
  · have : round6 (EXACT_WEIGHT / 2) = 1/2 := by
      unfold EXACT_WEIGHT
      rw [round6_spec _ 500000 (by norm_num) (by norm_num)]
      norm_num
    rw [this]
  · refine List.map_congr_left ?_
    intro t _
    simp only [Function.comp]
    congr 1
    unfold NATURAL_LANGUAGE_WEIGHT
    rw [div_div, one_div, one_div, mul_comm (ts.length : ℚ) 2]

/-- Witness for C7 (the spec's scenario): hint `"Dev Pane"` with the
extraction yielding `["dev", "pane"]` produces
`{token "dev pane", weight 1/2, exact}`, `{"dev", 1/4, nl}` and
`{"pane", 1/4, nl}`. -/
theorem c7_witness :
    (interpret id (fun _ => ["dev", "pane"])
      ⟨some "Dev Pane", none⟩).weightedHints =
      [⟨"dev pane", 1/2, .exact⟩, ⟨"dev", 1/4, .nl⟩, ⟨"pane", 1/4, .nl⟩] := by
  have H := (c7_exact_nl_split id (fun _ => ["dev", "pane"]) "Dev Pane"
    (by decide) (by decide) (by decide) (by decide) (by decide)).1
  rw [H]
  have hq : round6 (1 / (2 * ((["dev", "pane"].length : ℕ) : ℚ))) = 1/4 := by
    have : ((["dev", "pane"].length : ℕ) : ℚ) = 2 := by norm_num
    rw [this]
    rw [round6_spec _ 250000 (by norm_num) (by norm_num)]
    norm_num
  rw [List.map_cons, List.map_cons, List.map_nil, hq]
  have hsan : sanitizeExact id (trimStr (normalizeWhitespace (id "Dev Pane")))
      = "dev pane" := by decide
  rw [hsan]

/-! ### Lemmas about the multi-stage scorer -/

lemma round6_zero : round6 0 = 0 := by
  unfold round6
  rw [round_eq]
  norm_num

instance : IsTotal ScoredPane paneCmpLe := by
  constructor
  intro a b
  rcases lt_trichotomy a.total b.total with h | h | h
  · exact Or.inr (Or.inl h)
  · rcases lt_trichotomy (paneRecency a) (paneRecency b) with h2 | h2 | h2
    · exact Or.inr (Or.inr ⟨h, Or.inl h2⟩)
    · rcases le_total a.pane.id.data b.pane.id.data with h3 | h3
      · exact Or.inl (Or.inr ⟨h.symm, Or.inr ⟨h2.symm, h3⟩⟩)
      · exact Or.inr (Or.inr ⟨h, Or.inr ⟨h2, h3⟩⟩)
    · exact Or.inl (Or.inr ⟨h.symm, Or.inl h2⟩)
  · exact Or.inl (Or.inl h)

instance : IsTrans ScoredPane paneCmpLe := by
  constructor
  intro a b c hab hbc
  rcases hab with h1 | ⟨e1, h1⟩
  · rcases hbc with h2 | ⟨e2, h2⟩
    · exact Or.inl (lt_trans h2 h1)
    · exact Or.inl (e2 ▸ h1)
  · rcases hbc with h2 | ⟨e2, h2⟩
    · exact Or.inl (lt_of_lt_of_eq h2 e1)
    · refine Or.inr ⟨e2.trans e1, ?_⟩
      rcases h1 with h1 | ⟨f1, h1⟩
      · rcases h2 with h2 | ⟨f2, h2⟩
        · exact Or.inl (lt_trans h2 h1)
        · exact Or.inl (f2 ▸ h1)
      · rcases h2 with h2 | ⟨f2, h2⟩
        · exact Or.inl (lt_of_lt_of_eq h2 f1)
        · exact Or.inr ⟨f2.trans f1, le_trans h1 h2⟩

/-- With all-zero weights, no hints and no adjustments, every pane scores
0 with an all-zero stage map. -/
lemma scoreOne_zero (aw as : List String) (p : TmuxPane) :
    scoreOne aw as [] zeroWeights [] p = ⟨p, 0, {}⟩ := by
  unfold scoreOne computeHintContribution computeCommandContribution
    computeLayoutContribution computeFeedbackContribution zeroWeights
    stageTotal lookupAdj
  cases hcc : p.currentCommand with
  | none => simp [round6_zero, List.foldl]
  | some cmd =>
      by_cases hmt : toLowerStr cmd = ""
      · simp [round6_zero, List.foldl, hmt]
      · simp [round6_zero, List.foldl, hmt]

/-- C2: the scorer's output is pairwise ordered by the three-level
comparator relation (total descending, then `lastUsed` descending with a
missing value lowest, then id ascending), it is a permutation of the
per-pane scores, it is deterministic (the model is a pure function), and
the spec's concrete tie-break scenario holds: ids `%2, %1, %3` with
`lastUsed` 100, 150, 150 and all scoring weights tied rank `%1, %3, %2`. -/
theorem c2_rank_ordering (panes : List TmuxPane) (hints : List WeightedHint)
    (w : ScoringWeights) (adjustments : List (String × ℚ)) :
    List.Pairwise paneCmpLe (scorePanes panes hints w adjustments)
    ∧ (scorePanes panes hints w adjustments).Perm
        (panes.map (scoreOne (activeWindowsOf panes) (activeSessionsOf panes)
          hints w adjustments))
    ∧ scorePanes panes hints w adjustments =
        scorePanes panes hints w adjustments
    ∧ (scorePanes [tiePane "%2" 100, tiePane "%1" 150, tiePane "%3" 150] []
        zeroWeights []).map (fun s => s.pane.id) = ["%1", "%3", "%2"] := by
  refine ⟨List.sorted_insertionSort paneCmpLe _,
    List.perm_insertionSort paneCmpLe _, rfl, ?_⟩
  have hmap : ([tiePane "%2" 100, tiePane "%1" 150, tiePane "%3" 150]).map
      (scoreOne (activeWindowsOf
          [tiePane "%2" 100, tiePane "%1" 150, tiePane "%3" 150])
        (activeSessionsOf
          [tiePane "%2" 100, tiePane "%1" 150, tiePane "%3" 150])
        [] zeroWeights []) =
      [⟨tiePane "%2" 100, 0, {}⟩, ⟨tiePane "%1" 150, 0, {}⟩,
       ⟨tiePane "%3" 150, 0, {}⟩] := by
    simp [scoreOne_zero]
  have h13 : paneCmpLe ⟨tiePane "%1" 150, 0, {}⟩ ⟨tiePane "%3" 150, 0, {}⟩ := by
    refine Or.inr ⟨rfl, Or.inr ⟨rfl, ?_⟩⟩
    show ("%1".data : List Char) ≤ "%3".data
    decide
  have h21 : ¬ paneCmpLe ⟨tiePane "%2" 100, 0, {}⟩
      ⟨tiePane "%1" 150, 0, {}⟩ := by
    rintro (h | ⟨-, h | ⟨h, -⟩⟩)
    · exact lt_irrefl _ h
    · simp only [paneRecency, tiePane] at h
      rw [WithBot.coe_lt_coe] at h
      norm_num at h
    · simp only [paneRecency, tiePane] at h
      rw [WithBot.coe_eq_coe] at h
      norm_num at h
  have h23 : ¬ paneCmpLe ⟨tiePane "%2" 100, 0, {}⟩
      ⟨tiePane "%3" 150, 0, {}⟩ := by
    rintro (h | ⟨-, h | ⟨h, -⟩⟩)
    · exact lt_irrefl _ h
    · simp only [paneRecency, tiePane] at h
      rw [WithBot.coe_lt_coe] at h
      norm_num at h
    · simp only [paneRecency, tiePane] at h
      rw [WithBot.coe_eq_coe] at h
      norm_num at h
  unfold scorePanes
  rw [hmap]
  rw [List.insertionSort, List.insertionSort, List.insertionSort,
    List.insertionSort]
  rw [List.orderedInsert]
  rw [List.orderedInsert, if_pos h13]
  rw [List.orderedInsert, if_neg h21, List.orderedInsert, if_neg h23,
    List.orderedInsert]
  simp [tiePane]

/-- C5 (amended): the scorer passes negative multipliers through unclamped
for the `default`, `activePane`, `activeWindow`, `activeSession` and
`feedback` stages, and the total is the unclamped sum of the stage
contributions (a negative `defaultPane` of -1 drives the total to -1); but
the `hint`, `layoutSameWindow`, `layoutSameSession` and `commandCategory`
stages are gated on a strictly positive value, so a negative configured
multiplier there yields a 0 stage contribution, not a negative one. -/
theorem c5_negative_weights (activeWindows activeSessions : List String)
    (hints : List WeightedHint) (w : ScoringWeights)
    (adjustments : List (String × ℚ)) (pane : TmuxPane) :
    (scoreOne activeWindows activeSessions hints w adjustments
        pane).stageContributions.default = round6 w.defaultPane
    ∧ (scoreOne activeWindows activeSessions hints w adjustments
        pane).stageContributions.activePane =
        (if pane.isActive then round6 w.activePane else 0)
    ∧ (scoreOne activeWindows activeSessions hints w adjustments
        pane).stageContributions.activeWindow =
        (if pane.isActiveWindow then round6 w.activeWindow else 0)
    ∧ (scoreOne activeWindows activeSessions hints w adjustments
        pane).stageContributions.activeSession =
        (if pane.isActiveSession then round6 w.activeSession else 0)
    ∧ (scoreOne activeWindows activeSessions hints w adjustments
        pane).stageContributions.feedback =
        (if computeFeedbackContribution pane adjustments w ≠ 0 then
          computeFeedbackContribution pane adjustments w else 0)
    ∧ 0 ≤ (scoreOne activeWindows activeSessions hints w adjustments
        pane).stageContributions.hint
    ∧ 0 ≤ (scoreOne activeWindows activeSessions hints w adjustments
        pane).stageContributions.layoutSameWindow
    ∧ 0 ≤ (scoreOne activeWindows activeSessions hints w adjustments
        pane).stageContributions.layoutSameSession
    ∧ 0 ≤ (scoreOne activeWindows activeSessions hints w adjustments
        pane).stageContributions.commandCategory
    ∧ (scoreOne activeWindows activeSessions hints w adjustments pane).total =
        round6 (stageTotal (scoreOne activeWindows activeSessions hints w
          adjustments pane).stageContributions)
    ∧ (scoreOne [] [] [] ⟨0, 0, 0, 0, -1, [], ⟨0, 0⟩, ⟨0, 0, 0⟩⟩ []
        ⟨"%9", "t", "s", "w", none, false, false, false, none, none⟩).total =
        -1 := by
  refine ⟨rfl, rfl, rfl, rfl, rfl, ?_, ?_, ?_, ?_, rfl, ?_⟩
  · show 0 ≤ (if 0 < computeHintContribution pane hints w then
      computeHintContribution pane hints w else 0)
    by_cases h : 0 < computeHintContribution pane hints w
    · rw [if_pos h]; exact h.le
    · rw [if_neg h]
  · show 0 ≤ (if 0 < (computeLayoutContribution pane activeWindows
      activeSessions w).1 then
      (computeLayoutContribution pane activeWindows activeSessions w).1 else 0)
    by_cases h : 0 < (computeLayoutContribution pane activeWindows
        activeSessions w).1
    · rw [if_pos h]; exact h.le
    · rw [if_neg h]
  · show 0 ≤ (if 0 < (computeLayoutContribution pane activeWindows
      activeSessions w).2 then
      (computeLayoutContribution pane activeWindows activeSessions w).2 else 0)
    by_cases h : 0 < (computeLayoutContribution pane activeWindows
        activeSessions w).2
    · rw [if_pos h]; exact h.le
    · rw [if_neg h]
  · show 0 ≤ (if 0 < computeCommandContribution pane w then
      computeCommandContribution pane w else 0)
    by_cases h : 0 < computeCommandContribution pane w
    · rw [if_pos h]; exact h.le
    · rw [if_neg h]
  · have hneg : round6 (-1 : ℚ) = -1 := by
      unfold round6
      rw [round_eq]
      norm_num
    unfold scoreOne computeHintContribution computeCommandContribution
      computeLayoutContribution computeFeedbackContribution stageTotal
      lookupAdj
    norm_num [round6_zero, hneg, List.foldl]

/-- Counterexample for C5 as stated: with the hint multiplier configured to
-1 and a hint token that matches the pane, the `hint` stage contributes 0
— the negative per-hint value `round6(1 · (-1)) = -1` is skipped by the
`value <= 0` guard — instead of the claimed faithful negative
contribution; the pane's total is 0, not -1. -/
theorem c5_counterexample :
    paneMatchesToken
      ⟨"%1", "t", "s", "w", none, false, false, false, none, none⟩ "%1" = true
    ∧ (scoreOne [] [] [⟨"%1", 1, .nl⟩] ⟨-1, 0, 0, 0, 0, [], ⟨0, 0⟩, ⟨0, 0, 0⟩⟩
        []
        ⟨"%1", "t", "s", "w", none, false, false, false, none,
          none⟩).stageContributions.hint = 0
    ∧ (scoreOne [] [] [⟨"%1", 1, .nl⟩] ⟨-1, 0, 0, 0, 0, [], ⟨0, 0⟩, ⟨0, 0, 0⟩⟩
        []
        ⟨"%1", "t", "s", "w", none, false, false, false, none,
          none⟩).total = 0 := by
  have hmatch : paneMatchesToken
      ⟨"%1", "t", "s", "w", none, false, false, false, none, none⟩ "%1" =
      true := by decide
  have hneg : round6 (-1 : ℚ) = -1 := by
    unfold round6
    rw [round_eq]
    norm_num
  have hhc : computeHintContribution
      ⟨"%1", "t", "s", "w", none, false, false, false, none, none⟩
      [⟨"%1", 1, .nl⟩] ⟨-1, 0, 0, 0, 0, [], ⟨0, 0⟩, ⟨0, 0, 0⟩⟩ = 0 := by
    unfold computeHintContribution
    rw [List.foldl_cons, List.foldl_nil]
    rw [if_pos hmatch]
    norm_num [hneg, round6_zero]
  refine ⟨hmatch, ?_, ?_⟩
  · show (if 0 < computeHintContribution _ _ _ then _ else _) = 0
    rw [hhc]
    norm_num
  · unfold scoreOne
    rw [hhc]
    unfold computeCommandContribution computeLayoutContribution
      computeFeedbackContribution stageTotal lookupAdj
    norm_num [round6_zero]

/-! ### Lemmas about the context resolver -/

lemma scopedPanesOf_nil (a : Option String) : scopedPanesOf [] a = [] := by
  unfold scopedPanesOf activeSessionsOf
  cases a with
  | none => simp
  | some s => by_cases hs : s = "" <;> simp [hs]

lemma length_scorePanes (panes : List TmuxPane) (hints : List WeightedHint)
    (w : ScoringWeights) (adj : List (String × ℚ)) :
    (scorePanes panes hints w adj).length = panes.length := by
  unfold scorePanes
  rw [(List.perm_insertionSort paneCmpLe _).length_eq, List.length_map]

lemma scorePanes_pane_of_scoreOne (aw as : List String)
    (hints : List WeightedHint) (w : ScoringWeights)
    (adj : List (String × ℚ)) (p : TmuxPane) :
    (scoreOne aw as hints w adj p).pane = p := rfl

lemma scorePanes_ids_perm (panes : List TmuxPane) (hints : List WeightedHint)
    (w : ScoringWeights) (adj : List (String × ℚ)) :
    ((scorePanes panes hints w adj).map (fun s => s.pane.id)).Perm
      (panes.map (·.id)) := by
  unfold scorePanes
  have h := (List.perm_insertionSort paneCmpLe
    (panes.map (scoreOne (activeWindowsOf panes) (activeSessionsOf panes)
      hints w adj))).map (fun s => s.pane.id)
  have h2 : ((panes.map (scoreOne (activeWindowsOf panes)
      (activeSessionsOf panes) hints w adj)).map (fun s => s.pane.id)) =
      panes.map (·.id) := by
    rw [List.map_map]
    rfl
  rw [h2] at h
  exact h

lemma describeWithSession_eval {ε : Type} (cfg : FeedbackManagerOptions)
    (weights : ScoringWeights) (ext : List (String × ℚ))
    (panes : List TmuxPane) (hres : HintInterpreterResult) (now : ℚ)
    (req : DescribeRequest) (st : List FeedbackRecord)
    (a : Option String) (hs : scopedPanesOf panes a ≠ []) :
    describeWithSession (ε := ε) cfg weights ext panes (.ok hres) now req st
        a =
      .ok (⟨(scorePanes (scopedPanesOf panes a) hres.weightedHints weights
          (mergeAdjustments ext
            (getAdjustments now cfg
              (registerRequestFeedback req now st)).2)).map toResultPane⟩,
        (getAdjustments now cfg (registerRequestFeedback req now st)).1) := by
  unfold describeWithSession
  have hlen : ¬ (scopedPanesOf panes a).length = 0 := by
    simpa [List.length_eq_zero] using hs
  rw [if_neg hlen]
  dsimp only
  have hscored : ¬ (scorePanes (scopedPanesOf panes a) hres.weightedHints
      weights (mergeAdjustments ext (getAdjustments now cfg
        (registerRequestFeedback req now st)).2)).length = 0 := by
    rw [length_scorePanes]
    exact hlen
  rw [if_neg hscored]
  rw [if_neg (by simpa [List.length_map] using hscored)]

/-- C6: with the collaborators succeeding, `describe` fails with the
no-candidates error exactly when the candidate source returned no panes or
the session-scoped set is empty; whenever at least one candidate survives
scoping, it returns a ranked `sessionPanes` list with one entry per scoped
candidate (the scoped ids, permuted by ranking) and does not raise that
error. -/
theorem c6_no_candidates (ε : Type) (panes : List TmuxPane)
    (gcOk : Option (Option String)) (hres : HintInterpreterResult)
    (cfg : FeedbackManagerOptions) (weights : ScoringWeights)
    (ext : List (String × ℚ)) (now : ℚ) (req : DescribeRequest)
    (st : List FeedbackRecord) :
    (describeE (ε := ε) cfg weights ext (.ok panes) (gcOk.map Except.ok)
        (.ok hres) now req st = .error .noPanes ↔
      (panes = [] ∨ scopedPanesOf panes gcOk.join = []))
    ∧ (scopedPanesOf panes gcOk.join ≠ [] →
        ∃ res st', describeE (ε := ε) cfg weights ext (.ok panes)
            (gcOk.map Except.ok) (.ok hres) now req st = .ok (res, st')
          ∧ res.sessionPanes.length = (scopedPanesOf panes gcOk.join).length
          ∧ (res.sessionPanes.map (·.id)).Perm
              ((scopedPanesOf panes gcOk.join).map (·.id))) := by
  by_cases hp : panes = []
  · subst hp
    refine ⟨⟨fun _ => Or.inl rfl, fun _ => ?_⟩, fun hs => ?_⟩
    · rfl
    · exact absurd (scopedPanesOf_nil _) hs
  · have hplen : ¬ panes.length = 0 := by
      simpa [List.length_eq_zero] using hp
    have hred : describeE (ε := ε) cfg weights ext (.ok panes)
        (gcOk.map Except.ok) (.ok hres) now req st =
        describeWithSession cfg weights ext panes (.ok hres) now req st
          gcOk.join := by
      cases gcOk with
      | none =>
          unfold describeE
          dsimp only
          rw [if_neg hplen]
          rfl
      | some cur =>
          unfold describeE
          dsimp only
          rw [if_neg hplen]
          rfl
    rw [hred]
    by_cases hs : scopedPanesOf panes gcOk.join = []
    · refine ⟨⟨fun _ => Or.inr hs, fun _ => ?_⟩, fun hs' => absurd hs hs'⟩
      unfold describeWithSession
      rw [if_pos (by simpa [List.length_eq_zero] using hs)]
    · rw [describeWithSession_eval cfg weights ext panes hres now req st
        gcOk.join hs]
      refine ⟨⟨fun h => absurd h (by simp), fun h => ?_⟩, fun _ => ?_⟩
      · rcases h with h | h
        · exact absurd h hp
        · exact absurd h hs
      · refine ⟨_, _, rfl, ?_, ?_⟩
        · rw [List.length_map, length_scorePanes]
        · have hperm := scorePanes_ids_perm (scopedPanesOf panes gcOk.join)
            hres.weightedHints weights
            (mergeAdjustments ext (getAdjustments now cfg
              (registerRequestFeedback req now st)).2)
          have heq : ((scorePanes (scopedPanesOf panes gcOk.join)
              hres.weightedHints weights
              (mergeAdjustments ext (getAdjustments now cfg
                (registerRequestFeedback req now st)).2)).map
              toResultPane).map (·.id) =
              (scorePanes (scopedPanesOf panes gcOk.join)
                hres.weightedHints weights
                (mergeAdjustments ext (getAdjustments now cfg
                  (registerRequestFeedback req now st)).2)).map
                (fun s => s.pane.id) := by
            rw [List.map_map]
            rfl
          rw [heq]
          exact hperm

/-- Witness for C6: one pane, no scoping signal, an empty hint result —
`describe` succeeds with exactly one session pane, and it does not fail
with the no-candidates error. -/
theorem c6_witness :
    (describeE (ε := Unit) ⟨1, 1⟩ zeroWeights [] (.ok [tiePane "%1" 5]) none
        (.ok ⟨[], [], []⟩) 0 ⟨none, none, false, none⟩ [] =
      Except.error .noPanes ↔
      (([tiePane "%1" 5] : List TmuxPane) = [] ∨
        scopedPanesOf [tiePane "%1" 5] (Option.join none) = []))
    ∧ ¬ (describeE (ε := Unit) ⟨1, 1⟩ zeroWeights [] (.ok [tiePane "%1" 5])
        none (.ok ⟨[], [], []⟩) 0 ⟨none, none, false, none⟩ [] =
      Except.error .noPanes) := by
  have H := c6_no_candidates Unit [tiePane "%1" 5] none ⟨[], [], []⟩ ⟨1, 1⟩
    zeroWeights [] 0 ⟨none, none, false, none⟩ []
  refine ⟨H.1, ?_⟩
  intro hcon
  rcases H.1.mp hcon with h | h
  · exact List.cons_ne_nil _ _ h
  · have : scopedPanesOf [tiePane "%1" 5] (Option.join none) =
        [tiePane "%1" 5] := by
      norm_num [scopedPanesOf, activeSessionsOf, Option.join, tiePane,
        List.filter]
    rw [this] at h
    exact List.cons_ne_nil _ _ h

/-- C9 (amended): a candidate-source failure (a rejected `listPanes` or
`getCurrentSession` promise) propagates unmodified — the same error value,
not wrapped — and aborts the whole `describe` call; but a tokenizer
failure does NOT propagate: both the kuromoji path and the `compromise`
path catch the error and fall back to the deterministic punctuation
split, so the call continues. -/
theorem c9_collaborator_errors (ε : Type) (e e2 e3 : ε)
    (cfg : FeedbackManagerOptions) (weights : ScoringWeights)
    (ext : List (String × ℚ)) (gcs : Option (Except ε (Option String)))
    (ir : Except ε HintInterpreterResult) (now : ℚ) (req : DescribeRequest)
    (st : List FeedbackRecord) (panes : List TmuxPane) (v : String) :
    describeE cfg weights ext (.error e) gcs ir now req st =
      .error (.collab e)
    ∧ (panes ≠ [] →
        describeE cfg weights ext (.ok panes) (some (.error e2)) ir now req
          st = .error (.collab e2))
    ∧ tokenizeJapaneseE (ε := ε) (.error e3) v = fallbackSegment v
    ∧ extractEnglishTokensE (ε := ε) (.error e3) v = fallbackSegment v := by
  refine ⟨rfl, ?_, rfl, rfl⟩
  intro hp
  unfold describeE
  dsimp only
  rw [if_neg (by simpa [List.length_eq_zero] using hp)]

/-- Witness for C9: with one pane present, a failing `getCurrentSession`
aborts the call with exactly the thrown error; a failing kuromoji
tokenizer is replaced by the fallback segmentation of the input. -/
theorem c9_witness :
    describeE (ε := String) ⟨1, 1⟩ zeroWeights [] (.ok [tiePane "%1" 5])
        (some (.error "tmux unreachable")) (.ok ⟨[], [], []⟩) 0
        ⟨none, none, false, none⟩ [] =
      .error (.collab "tmux unreachable")
    ∧ tokenizeJapaneseE (ε := String) (.error "kuromoji init failed")
        "tail -f app.log" = fallbackSegment "tail -f app.log" := by
  have H := c9_collaborator_errors String "x" "tmux unreachable"
    "kuromoji init failed" ⟨1, 1⟩ zeroWeights [] none (.ok ⟨[], [], []⟩) 0
    ⟨none, none, false, none⟩ [] [tiePane "%1" 5] "tail -f app.log"
  exact ⟨H.2.1 (List.cons_ne_nil _ _), H.2.2.1⟩

/-- Counterexample for C9 as stated: a tokenizer failure does not abort
`interpret`.  With the kuromoji tokenizer rejecting, the extraction path
catches the error and produces the fallback tokens `["tail", "log"]`, and
the interpretation completes normally with three weighted hints (one
exact plus two fallback tokens) instead of surfacing the error. -/
theorem c9_counterexample :
    tokenizeJapaneseE (ε := String) (.error "kuromoji init failed")
      "tail log" = ["tail", "log"]
    ∧ (interpret id
        (fun vv => postProcessTokens id
          (tokenizeJapaneseE (ε := String) (.error "kuromoji init failed")
            vv))
        ⟨some "tail log", none⟩).weightedHints.length = 3 := by
  have htok : tokenizeJapaneseE (ε := String) (.error "kuromoji init failed")
      "tail log" = ["tail", "log"] := by decide
  refine ⟨htok, ?_⟩
  have htrim : trimStr (normalizeWhitespace "tail log") = "tail log" := by
    decide
  have hsan : sanitizeExact id "tail log" = "tail log" := by decide
  have hex : postProcessTokens id
      (tokenizeJapaneseE (ε := String) (.error "kuromoji init failed")
        "tail log") = ["tail", "log"] := by decide
  have hpend : (interpretState id
      (fun vv => postProcessTokens id
        (tokenizeJapaneseE (ε := String) (.error "kuromoji init failed") vv))
      ⟨some "tail log", none⟩).pending =
      [⟨"tail log", EXACT_WEIGHT, .exact⟩,
       ⟨"tail", NATURAL_LANGUAGE_WEIGHT / (2:ℚ), .nl⟩,
       ⟨"log", NATURAL_LANGUAGE_WEIGHT / (2:ℚ), .nl⟩] := by
    show (processPaneHint id _ (some "tail log") ⟨[], [], []⟩).pending = _
    simp only [processPaneHint, id_eq, htrim, hsan, hex]
    rw [if_neg (by decide : ¬ ("tail log" : String) = "")]
    rw [if_neg (by decide : ¬ (["tail", "log"] : List String).isEmpty = true)]
    have hfold := foldl_addHint_tokens .nl
      (NATURAL_LANGUAGE_WEIGHT / ((["tail", "log"] : List String).length : ℚ))
      (by unfold NATURAL_LANGUAGE_WEIGHT; norm_num) ["tail", "log"]
      (addHint ⟨[], [], []⟩ "tail log" EXACT_WEIGHT .exact)
      (by decide) (by decide) ?_
    · have hexact : (addHint ⟨[], [], []⟩ "tail log" EXACT_WEIGHT
          .exact).pending = [⟨"tail log", EXACT_WEIGHT, .exact⟩] := by
        unfold addHint
        rw [if_neg (not_or.mpr ⟨by decide,
          by unfold EXACT_WEIGHT; norm_num⟩)]
        rfl
      rw [hfold, hexact]
      norm_num
    · intro t _ g hg
      have hexact : (addHint ⟨[], [], []⟩ "tail log" EXACT_WEIGHT
          .exact).pending = [⟨"tail log", EXACT_WEIGHT, .exact⟩] := by
        unfold addHint
        rw [if_neg (not_or.mpr ⟨by decide,
          by unfold EXACT_WEIGHT; norm_num⟩)]
        rfl
      rw [hexact] at hg
      rcases List.mem_singleton.mp hg with rfl
      intro hc
      exact absurd hc.2 (by simp)
  have hdef : (interpret id
      (fun vv => postProcessTokens id
        (tokenizeJapaneseE (ε := String) (.error "kuromoji init failed") vv))
      ⟨some "tail log", none⟩).weightedHints =
      normalizeWeights [⟨"tail log", EXACT_WEIGHT, .exact⟩,
        ⟨"tail", NATURAL_LANGUAGE_WEIGHT / (2:ℚ), .nl⟩,
        ⟨"log", NATURAL_LANGUAGE_WEIGHT / (2:ℚ), .nl⟩] := by
    have : (interpret id
        (fun vv => postProcessTokens id
          (tokenizeJapaneseE (ε := String) (.error "kuromoji init failed")
            vv))
        ⟨some "tail log", none⟩).weightedHints =
        normalizeWeights (interpretState id
          (fun vv => postProcessTokens id
            (tokenizeJapaneseE (ε := String) (.error "kuromoji init failed")
              vv))
          ⟨some "tail log", none⟩).pending := rfl
    rw [this, hpend]
  rw [hdef]
  unfold normalizeWeights
  rw [show sumWeights [⟨"tail log", EXACT_WEIGHT, .exact⟩,
    ⟨"tail", NATURAL_LANGUAGE_WEIGHT / (2:ℚ), .nl⟩,
    ⟨"log", NATURAL_LANGUAGE_WEIGHT / (2:ℚ), .nl⟩] = 2 from by
    norm_num [sumWeights, EXACT_WEIGHT, NATURAL_LANGUAGE_WEIGHT]]
  rw [if_neg (by norm_num)]
  simp
